import Mathlib

/-!
Verification development for the Jerry AI SMS backend
(`index.js` and its sibling server variants).

The JavaScript source is shallowly embedded: messages and stored text
columns are modelled as `List Char`, a conversation row as the structure
`Conv`, and each dialogue turn (`getJerryResponse`) as a pure function
from the inbound message and the current row to the reply, the updated
row and an optional finalization record (the `INSERT` into the
appointments or callbacks table).  The Postgres-backed helpers
(`getOrCreateConversation`, the webhook route, the campaign and
manual-reply routes) are embedded as functions on an explicit `Store`.

JavaScript string semantics used by the source are reproduced over
`List Char`: `toLowerCase` (ASCII), `trim`, `includes` (substring),
`replace` with character-class regexes (filters), `split` with a
case-insensitive pattern (the `[1]` component is the segment between
the first and second match), `match(/\d+/)` (first run of digits),
and truthiness of `null`/`''`/`0` guards.
-/

namespace Jerry

/-- ASCII lowercase map, the behaviour of JS `toLowerCase` on ASCII text. -/
def lcChar (c : Char) : Char :=
  if 'A' ≤ c ∧ c ≤ 'Z' then Char.ofNat (c.toNat + 32) else c

/-- ASCII uppercase map, the behaviour of JS `toUpperCase` on ASCII text. -/
def ucChar (c : Char) : Char :=
  if 'a' ≤ c ∧ c ≤ 'z' then Char.ofNat (c.toNat - 32) else c

/-- ASCII letter test, the character class `[a-zA-Z]`. -/
def isAlphaC (c : Char) : Bool :=
  if ('a' ≤ c ∧ c ≤ 'z') ∨ ('A' ≤ c ∧ c ≤ 'Z') then true else false

/-- Digit test, the character class `\d`. -/
def isDigitC (c : Char) : Bool :=
  if '0' ≤ c ∧ c ≤ '9' then true else false

/-- Whitespace test, the character class `\s` (the forms that occur in SMS text). -/
def isSpaceC (c : Char) : Bool :=
  c == ' ' || c == '\t' || c == '\n' || c == '\r'

/-- JS `toLowerCase`. -/
def toLowerJS (s : List Char) : List Char := s.map lcChar

/-- JS `trim` (strip leading and trailing whitespace). -/
def trimJS (s : List Char) : List Char :=
  ((s.dropWhile isSpaceC).reverse.dropWhile isSpaceC).reverse

/-- The characters of a string literal. -/
def chars (s : String) : List Char := s.data

/-- `needle` is a prefix of `hay`. -/
def isPrefOf : List Char → List Char → Bool
  | [], _ => true
  | _ :: _, [] => false
  | a :: as, b :: bs => a == b && isPrefOf as bs

/-- JS `hay.includes(needle)`: substring containment. -/
def hasSub : List Char → List Char → Bool
  | [], needle => needle.isEmpty
  | h :: t, needle => isPrefOf needle (h :: t) || hasSub t needle

/-- Numeric value of a run of decimal digits (JS `parseInt` on a digit string). -/
def digitsVal (ds : List Char) : Nat :=
  ds.foldl (fun n c => n * 10 + (c.toNat - 48)) 0

/-- First maximal run of digits in the text: JS `s.match(/\d+/)`. -/
def firstDigitRun : List Char → Option (List Char)
  | [] => none
  | c :: t => if isDigitC c then some (c :: t.takeWhile isDigitC) else firstDigitRun t

/-- Decimal digits of `n`, most significant first (fuelled helper). -/
def natDigitsGo : Nat → Nat → List Char
  | 0, _ => []
  | fuel + 1, n =>
    if n < 10 then [Char.ofNat (48 + n)]
    else natDigitsGo fuel (n / 10) ++ [Char.ofNat (48 + n % 10)]

/-- Decimal digits of `n`, most significant first. -/
def natDigits (n : Nat) : List Char := natDigitsGo (n + 1) n

/-- Insert a comma after every three digits, input least significant first. -/
def commaGroupRev : List Char → Nat → List Char
  | [], _ => []
  | c :: t, k =>
    (if k != 0 && k % 3 == 0 then [',', c] else [c]) ++ commaGroupRev t (k + 1)

/-- JS `n.toLocaleString('en-CA')`: decimal digits grouped in threes by commas. -/
def localeChars (n : Nat) : List Char :=
  (commaGroupRev (natDigits n).reverse 0).reverse

/-- JS truthiness of a nullable text column: `null` and `''` are falsy. -/
def isFalsy : Option (List Char) → Bool
  | none => true
  | some s => s.isEmpty

/-- JS truthiness of a nullable integer column: `null` and `0` are falsy. -/
def isFalsyN : Option Nat → Bool
  | none => true
  | some n => n == 0

/-- JS `v || d` on a nullable text value. -/
def jsOr (v : Option (List Char)) (d : List Char) : List Char :=
  match v with
  | none => d
  | some s => if s.isEmpty then d else s

/-- JS template-literal interpolation of a nullable text value
(`null` prints as the text `null`). -/
def tmpl : Option (List Char) → List Char
  | none => chars "null"
  | some s => s

/-- Scan for the first position where the matcher `f` recognises a pattern;
return the rest of the text after that match (JS `split(pat)` then index 1,
first half: everything past the first match). -/
def afterFirstM (f : List Char → Option Nat) : List Char → Option (List Char)
  | [] => none
  | c :: t =>
    match f (c :: t) with
    | some k => some (List.drop k (c :: t))
    | none => afterFirstM f t

/-- Take characters up to the next match of `f` (JS `split(pat)` then index 1,
second half: the segment stops at the following match). -/
def upToNextM (f : List Char → Option Nat) : List Char → List Char
  | [] => []
  | c :: t =>
    match f (c :: t) with
    | some _ => []
    | none => c :: upToNextM f t

/-- JS `s.split(pat)[1]`: the segment between the first and the second
match of the pattern, `none` when the pattern does not match. -/
def part1M (f : List Char → Option Nat) (s : List Char) : Option (List Char) :=
  (afterFirstM f s).map (upToNextM f)

/-- Matcher for a fixed text pattern with the `i` flag
(case-insensitive literal match at the head of the text). -/
def litCI (pat s : List Char) : Option Nat :=
  if isPrefOf (toLowerJS pat) (toLowerJS s) then some pat.length else none

/-- JS `s.split(/pat/i)[1]` for a literal pattern. -/
def part1Lit (pat s : List Char) : Option (List Char) := part1M (litCI pat) s

/-- Matcher for the regex `/i[' ]?m/i` at the head of the text
(greedy optional separator, as the JS engine matches it). -/
def matchIM : List Char → Option Nat
  | c0 :: c1 :: c2 :: _ =>
    if lcChar c0 == 'i' then
      if (c1 == Char.ofNat 39 || c1 == ' ') && lcChar c2 == 'm' then some 3
      else if lcChar c1 == 'm' then some 2
      else none
    else none
  | [c0, c1] =>
    if lcChar c0 == 'i' && lcChar c1 == 'm' then some 2 else none
  | _ => none

/-- `name.charAt(0).toUpperCase() + name.slice(1)`. -/
def capFirst : List Char → List Char
  | [] => []
  | c :: t => ucChar c :: t

/-- `name.charAt(0).toUpperCase() + name.slice(1).toLowerCase()`. -/
def capFirstLowerRest : List Char → List Char
  | [] => []
  | c :: t => ucChar c :: toLowerJS t

/-! ## Extraction utilities of `index.js` -/

/-- `extractBudget` from `index.js`: remove every non-digit
(`message.replace(/[^\d]/g, '')`), return `null` when nothing is left,
otherwise the parsed number. -/
def extractBudget (message : List Char) : Option Nat :=
  let digits := message.filter isDigitC
  if digits.isEmpty then none else some (digitsVal digits)

/-- `extractNameFromMessage` from `index.js`: match "my name is X",
"i'm X" / "im X", "i am X" case-insensitively; take the text after the
matched phrase, trim it, strip characters outside `[a-zA-Z\s]`, trim
again, and capitalize the first letter while lowercasing the rest.
Returns `null` when no pattern matches or nothing remains. -/
def extractNameFromMessage (message : List Char) : Option (List Char) :=
  let lower := toLowerJS message
  let name : Option (List Char) :=
    if hasSub lower (chars "my name is") then
      (part1Lit (chars "my name is") message).map trimJS
    else if hasSub lower (chars "i\x27m ") || hasSub lower (chars "im ") then
      (part1M matchIM message).map trimJS
    else if hasSub lower (chars "i am ") then
      (part1Lit (chars "i am") message).map trimJS
    else none
  match name with
  | none => none
  | some n1 =>
    if n1.isEmpty then none
    else
      let n2 := trimJS (n1.filter (fun c => isAlphaC c || isSpaceC c))
      if n2.isEmpty then none
      else some (capFirstLowerRest n2)

/-- `normalizeVagueDatetime` from `index.js`: map casual scheduling
phrases to a fixed vocabulary; any text matching none of the phrases is
returned unchanged. -/
def normalizeVagueDatetime (message : List Char) : List Char :=
  let lower := trimJS (toLowerJS message)
  if hasSub lower (chars "today") then
    if hasSub lower (chars "morning") then chars "Today morning"
    else if hasSub lower (chars "afternoon") then chars "Today afternoon"
    else if hasSub lower (chars "evening") || hasSub lower (chars "tonight") then
      chars "Today evening"
    else chars "Today afternoon"
  else if hasSub lower (chars "tomorrow") then
    if hasSub lower (chars "morning") then chars "Tomorrow morning"
    else if hasSub lower (chars "afternoon") then chars "Tomorrow afternoon"
    else if hasSub lower (chars "evening") || hasSub lower (chars "tonight") then
      chars "Tomorrow evening"
    else chars "Tomorrow afternoon"
  else if hasSub lower (chars "this weekend") || hasSub lower (chars "weekend") then
    chars "This weekend"
  else if hasSub lower (chars "next week") then
    chars "Next week"
  else if hasSub lower (chars "this morning") then
    chars "Today morning"
  else if hasSub lower (chars "this afternoon") then
    chars "Today afternoon"
  else if hasSub lower (chars "this evening") || hasSub lower (chars "tonight") then
    chars "Today evening"
  else message

/-! ## Data model -/

/-- A row of the `conversations` table (timestamp columns, which no
dialogue logic reads, are omitted).  Nullable text columns are
`Option (List Char)`. -/
structure Conv where
  id : Nat
  phone : List Char
  status : List Char
  stage : Option (List Char)
  vehicle_type : Option (List Char)
  budget : Option (List Char)
  budget_amount : Option Nat
  intent : Option (List Char)
  customer_name : Option (List Char)
  datetime : Option (List Char)
deriving Repr, DecidableEq

/-- The data of one `INSERT` into the appointments or callbacks table
(`saveAppointment` / `saveCallback`); `isAppointment` records which of
the two tables receives the row. -/
structure FinRec where
  isAppointment : Bool
  phone : List Char
  name : Option (List Char)
  vehicleType : Option (List Char)
  budget : Option (List Char)
  budgetAmount : Option Nat
  datetime : List Char
deriving Repr, DecidableEq

/-- The observable outcome of one dialogue turn: the reply text, the
conversation row as left in the database, and the finalization row
inserted during the turn, if any. -/
structure StepResult where
  reply : List Char
  conv : Conv
  fin : Option FinRec
deriving Repr, DecidableEq

/-- A conversation row as inserted by `index.js`
(`INSERT ... VALUES (phone, 'active', 'greeting')`). -/
def freshConv (id : Nat) (phone : List Char) : Conv :=
  { id := id, phone := phone, status := chars "active", stage := some (chars "greeting"),
    vehicle_type := none, budget := none, budget_amount := none, intent := none,
    customer_name := none, datetime := none }

/-! ## The dialogue engine of `index.js` (`getJerryResponse`) -/

/-! Reply texts of the `index.js` dialogue engine, one constant per
return statement (template-literal interpolations become function
arguments). -/

namespace R

def unsub : List Char :=
  chars "You\x27ve been unsubscribed. Reply START if you ever want to chat again."

def welcomeBack : List Char :=
  chars "Welcome back! What type of vehicle are you most interested in? (SUV, Truck, Sedan, etc.)"

def location : List Char :=
  chars "We are based in Calgary, Alberta and we can deliver vehicles all across Canada. If you’d like exact directions or store details, I can also have a manager call you."

def managerAsk : List Char :=
  chars "No problem! What\x27s the best time for a quick call? (e.g. Tomorrow at 2pm, Friday morning, This evening)"

def niceTD (n : List Char) : List Char :=
  chars "Nice to meet you, " ++ n ++
    chars "! When works best for your test drive? (e.g. Tomorrow afternoon, Saturday morning, Next week)"

def niceCall (n : List Char) : List Char :=
  chars "Nice to meet you, " ++ n ++
    chars "! What time works best for a quick call? (e.g. Tomorrow at 2pm, Friday morning, This evening)"

def inventory (v : Option (List Char)) : List Char :=
  chars "Great question! I’ll have one of our managers text you photos of " ++
    jsOr v (chars "vehicles") ++ chars " in your budget range. They’ll reach out shortly."

def greatChoice (v : Option (List Char)) : List Char :=
  chars "Great choice on a " ++ jsOr v [] ++
    chars "! What budget range are you thinking? (e.g. 15k, 25k, 40k, 60k)"

def askVehicle : List Char :=
  chars "Awesome, I can help with that. What type of vehicle are you most interested in? (SUV, Truck, Sedan, etc.)"

def budgetReprompt : List Char :=
  chars "Got it. To narrow things down, roughly what budget range are you thinking? (e.g. 15k, 25k, 40k, 60k)"

def budgetFocus (b : List Char) : List Char :=
  chars "Perfect, I’ll focus on options around " ++ b ++
    chars ". Would you prefer to book a quick test drive or have a manager give you a call first?"

def tdWhen : List Char :=
  chars "Awesome! When works best for your test drive? (e.g. Tomorrow afternoon, Saturday morning, Next week)"

def callWhen : List Char :=
  chars "No problem! What time works best for a quick call? (e.g. Tomorrow at 2pm, Friday morning, This evening)"

def menu : List Char :=
  chars "Would you like to book a quick test drive or have a manager give you a call first?"

def tdBooked (n dt : List Char) : List Char :=
  chars "Perfect " ++ n ++ chars "! I’ve booked your test drive for \"" ++ dt ++
    chars "\". We’re in Calgary, Alberta and we can deliver across Canada. You’ll also get a confirmation from our team. Reply STOP to opt out."

def cbBooked (n dt : List Char) : List Char :=
  chars "Got it " ++ n ++ chars "! One of our managers will call you around \"" ++ dt ++
    chars "\" with options that fit your budget. Reply STOP to opt out."

def reschedAsk : List Char :=
  chars "No problem at all. What time works better for you? (e.g. Friday afternoon, Next Tuesday, This weekend)"

def cancelled : List Char :=
  chars "No worries, I’ve cancelled that for you. If you change your mind, just text me again and we’ll set something up."

def inventoryConfirmed (v : Option (List Char)) : List Char :=
  chars "Great! I’ll have one of our managers text you photos of " ++
    jsOr v (chars "vehicles") ++ chars " in your budget range. They’ll reach out shortly."

def allSet (n : List Char) (dt : Option (List Char)) : List Char :=
  chars "Thanks " ++ n ++ chars "! You’re confirmed for \"" ++ tmpl dt ++
    chars "\". If you want to reschedule, just say RESCHEDULE."

def fallback (n : List Char) : List Char :=
  chars "Thanks " ++ n ++
    chars "! I’ve noted that. If you want to book a test drive or a quick call, just mention \"test drive\" or \"call\" and I’ll help you set it up."

end R

/-- The vehicle keyword scan of the greeting stage: reassign the local
`vehicleType` on a SUV/Truck/Sedan keyword, else keep the stored value. -/
def vehicleMatch (msg : List Char) (v0 : Option (List Char)) : Option (List Char) :=
  if hasSub (toLowerJS msg) (chars "suv") then some (chars "SUV")
  else if hasSub (toLowerJS msg) (chars "truck") then some (chars "Truck")
  else if hasSub (toLowerJS msg) (chars "sedan") then some (chars "Sedan")
  else v0

/-- The `appointmentData` object built in the datetime branch of
`index.js` (`x || null` normalizes falsy fields to null). -/
def mkApptData (phone : List Char) (conversation : Conv) (finalDateTime : List Char) : FinRec :=
  { isAppointment := conversation.intent == some (chars "testdrive"),
    phone := phone,
    name := some (jsOr conversation.customer_name (chars "there")),
    vehicleType := if isFalsy conversation.vehicle_type then none else conversation.vehicle_type,
    budget := if isFalsy conversation.budget then none else conversation.budget,
    budgetAmount := if isFalsyN conversation.budget_amount then none else conversation.budget_amount,
    datetime := finalDateTime }

/-- The greeting-stage logic of `index.js`: keyword-match a vehicle
category and advance to `budget`, else re-prompt without advancing. -/
def greetingLogic (msg : List Char) (conversation : Conv) : StepResult :=
  if isFalsy (vehicleMatch msg conversation.vehicle_type) = false then
    { reply := R.greatChoice (vehicleMatch msg conversation.vehicle_type),
      conv := { conversation with vehicle_type := vehicleMatch msg conversation.vehicle_type, stage := some (chars "budget") },
      fin := none }
  else
    { reply := R.askVehicle, conv := conversation, fin := none }

/-- The budget-stage logic of `index.js`: run `extractBudget`; on a
truthy amount persist the display budget and the amount and advance to
`intent`, else re-prompt. -/
def budgetLogic (msg : List Char) (conversation : Conv) : StepResult :=
  match extractBudget msg with
  | none => { reply := R.budgetReprompt, conv := conversation, fin := none }
  | some budgetAmount =>
    if budgetAmount == 0 then
      { reply := R.budgetReprompt, conv := conversation, fin := none }
    else
      { reply := R.budgetFocus (chars "$" ++ localeChars budgetAmount),
        conv := { conversation with budget := some (chars "$" ++ localeChars budgetAmount), budget_amount := some budgetAmount, stage := some (chars "intent") },
        fin := none }

/-- The intent-stage logic of `index.js`: test-drive or callback
keywords advance to `datetime`, anything else re-prompts the menu. -/
def intentLogic (msg : List Char) (conversation : Conv) : StepResult :=
  if hasSub (toLowerJS msg) (chars "test drive") || hasSub (toLowerJS msg) (chars "testdrive") ||
      hasSub (toLowerJS msg) (chars "drive") then
    { reply := R.tdWhen,
      conv := { conversation with intent := some (chars "testdrive"), stage := some (chars "datetime") },
      fin := none }
  else if hasSub (toLowerJS msg) (chars "call") || hasSub (toLowerJS msg) (chars "phone") then
    { reply := R.callWhen,
      conv := { conversation with intent := some (chars "callback"), stage := some (chars "datetime") },
      fin := none }
  else
    { reply := R.menu, conv := conversation, fin := none }

/-- The datetime-stage logic of `index.js`: normalize the text, mark
the conversation `confirmed`/`converted` and finalize into the table
selected by the intent (`saveAppointment` for `testdrive`, else
`saveCallback`). -/
def datetimeLogic (phone msg : List Char) (conversation : Conv) : StepResult :=
  if conversation.intent == some (chars "testdrive") then
    { reply := R.tdBooked (jsOr conversation.customer_name (chars "there"))
        (normalizeVagueDatetime msg),
      conv := { conversation with datetime := some (normalizeVagueDatetime msg), stage := some (chars "confirmed"), status := chars "converted" },
      fin := some (mkApptData phone conversation (normalizeVagueDatetime msg)) }
  else
    { reply := R.cbBooked (jsOr conversation.customer_name (chars "there"))
        (normalizeVagueDatetime msg),
      conv := { conversation with datetime := some (normalizeVagueDatetime msg), stage := some (chars "confirmed"), status := chars "converted" },
      fin := some (mkApptData phone conversation (normalizeVagueDatetime msg)) }

/-- The confirmed-stage logic of `index.js`: reschedule resets the
stage to `datetime` (status untouched); cancel sets status
`cancelled`; inventory questions and everything else only reply. -/
def confirmedLogic (msg : List Char) (conversation : Conv) : StepResult :=
  if hasSub (toLowerJS msg) (chars "reschedule") || hasSub (toLowerJS msg) (chars "change") ||
      hasSub (toLowerJS msg) (chars "different time") then
    { reply := R.reschedAsk, conv := { conversation with stage := some (chars "datetime") },
      fin := none }
  else if hasSub (toLowerJS msg) (chars "cancel") then
    { reply := R.cancelled, conv := { conversation with status := chars "cancelled" }, fin := none }
  else if hasSub (toLowerJS msg) (chars "inventory") || hasSub (toLowerJS msg) (chars "photos") ||
      hasSub (toLowerJS msg) (chars "pictures") || hasSub (toLowerJS msg) (chars "see vehicles") then
    { reply := R.inventoryConfirmed conversation.vehicle_type, conv := conversation, fin := none }
  else
    { reply := R.allSet (jsOr conversation.customer_name (chars "there")) conversation.datetime,
      conv := conversation, fin := none }

/-- The stage dispatch of `index.js` (the `if (stage === ... || !field)`
ladder after the global interrupts). -/
def stageLogic (phone msg : List Char) (conversation : Conv) : StepResult :=
  if jsOr conversation.stage (chars "greeting") = chars "greeting" ∨
      isFalsy conversation.vehicle_type then
    greetingLogic msg conversation
  else if jsOr conversation.stage (chars "greeting") = chars "budget" ∨
      isFalsy conversation.budget then
    budgetLogic msg conversation
  else if jsOr conversation.stage (chars "greeting") = chars "intent" ∨
      isFalsy conversation.intent then
    intentLogic msg conversation
  else if jsOr conversation.stage (chars "greeting") = chars "datetime" ∨
      isFalsy conversation.datetime then
    datetimeLogic phone msg conversation
  else if jsOr conversation.stage (chars "greeting") = chars "confirmed" then
    confirmedLogic msg conversation
  else
    { reply := R.fallback (jsOr conversation.customer_name (chars "there")),
      conv := conversation, fin := none }

/-- The global interrupts of `index.js`, checked before any stage
logic: opt-out, resume, location question, manager/callback phrase,
mid-flow name capture, inventory question.  `none` means no interrupt
fired and the stage logic runs. -/
def globalInterrupts (msg : List Char) (conversation : Conv) : Option StepResult :=
  if hasSub (toLowerJS msg) (chars "stop") then
    some { reply := R.unsub, conv := { conversation with status := chars "stopped" }, fin := none }
  else if hasSub (toLowerJS msg) (chars "start") && conversation.status == chars "stopped" then
    some { reply := R.welcomeBack, conv := { conversation with status := chars "active" }, fin := none }
  else if hasSub (toLowerJS msg) (chars "location") || hasSub (toLowerJS msg) (chars "where") ||
      hasSub (toLowerJS msg) (chars "address") || hasSub (toLowerJS msg) (chars "dealership") ||
      hasSub (toLowerJS msg) (chars "calgary") || hasSub (toLowerJS msg) (chars "alberta") then
    some { reply := R.location, conv := conversation, fin := none }
  else if hasSub (toLowerJS msg) (chars "manager") || hasSub (toLowerJS msg) (chars "call") ||
      hasSub (toLowerJS msg) (chars "more info") || hasSub (toLowerJS msg) (chars "details") then
    some { reply := R.managerAsk, conv := { conversation with intent := some (chars "callback") }, fin := none }
  else
    match extractNameFromMessage msg with
    | some maybeName =>
      some { reply := (if conversation.intent == some (chars "testdrive") then R.niceTD maybeName else R.niceCall maybeName), conv := { conversation with customer_name := some maybeName }, fin := none }
    | none =>
      if hasSub (toLowerJS msg) (chars "inventory") || hasSub (toLowerJS msg) (chars "photos") ||
          hasSub (toLowerJS msg) (chars "pictures") || hasSub (toLowerJS msg) (chars "see vehicles") then
        some { reply := R.inventory conversation.vehicle_type, conv := conversation, fin := none }
      else none

/-- `getJerryResponse` from `index.js`, embedded as a pure function:
the global interrupts run first and return directly; otherwise the
stage ladder runs.  Every `await updateConversation(...)` becomes a
record update of the row, and `saveAppointment`/`saveCallback` become
the `fin` field.  Analytics inserts, the customers-table name
propagation and the email notification touch no conversation state and
are not modelled. -/
def getJerryResponse (phone msg : List Char) (conversation : Conv) : StepResult :=
  match globalInterrupts msg conversation with
  | some r => r
  | none => stageLogic phone msg conversation

/-! ## The store and the HTTP operations of `index.js` -/

/-- A stored message row (`saveMessage`): conversation id, phone, role,
content. -/
structure MsgRec where
  conversationId : Nat
  phone : List Char
  role : List Char
  content : List Char
deriving Repr, DecidableEq

/-- The mutable tables the dialogue paths touch.  `convs` is held newest
first, so the head-most match plays the role of
`ORDER BY started_at DESC LIMIT 1`.  `nextId` is the conversations
sequence. -/
structure Store where
  customers : List (List Char)
  convs : List Conv
  messages : List MsgRec
  appointments : List FinRec
  callbacks : List FinRec
  nextId : Nat
deriving Repr, DecidableEq

/-- The store with empty tables. -/
def emptyStore : Store :=
  { customers := [], convs := [], messages := [], appointments := [], callbacks := [],
    nextId := 1 }

/-- The row-level predicate of the active-conversation queries:
`customer_phone = $1 AND status = 'active'`. -/
def isActiveFor (phone : List Char) (c : Conv) : Bool :=
  c.phone == phone && c.status == chars "active"

/-- `getOrCreateCustomer`: select by phone, insert when absent. -/
def getOrCreateCustomer (phone : List Char) (s : Store) : Store :=
  if s.customers.contains phone then s
  else { s with customers := phone :: s.customers }

/-- `getOrCreateConversation` from `index.js`: select the most recently
started active conversation for the phone; if none exists, insert a new
active row at stage `greeting`.  (The `updated_at` touch on the existing
row changes no modelled column.) -/
def getOrCreateConversation (phone : List Char) (s : Store) : Conv × Store :=
  match s.convs.find? (isActiveFor phone) with
  | some c => (c, s)
  | none =>
    let c := freshConv s.nextId phone
    (c, { s with convs := c :: s.convs, nextId := s.nextId + 1 })

/-- `hasActiveConversation`: does any active conversation exist for the
phone? -/
def hasActiveB (phone : List Char) (s : Store) : Bool :=
  s.convs.any (isActiveFor phone)

/-- `saveMessage`. -/
def saveMessage (conversationId : Nat) (phone role content : List Char) (s : Store) : Store :=
  { s with messages := { conversationId := conversationId, phone := phone, role := role, content := content } :: s.messages }

/-- Write back the row a dialogue turn produced
(`updateConversation` keyed by the row id). -/
def writeConv (c2 : Conv) (s : Store) : Store :=
  { s with convs := s.convs.map (fun c => if c.id == c2.id then c2 else c) }

/-- Record a finalization insert in its table. -/
def writeFin (f : Option FinRec) (s : Store) : Store :=
  match f with
  | none => s
  | some r =>
    if r.isAppointment then { s with appointments := r :: s.appointments }
    else { s with callbacks := r :: s.callbacks }

/-- The dialogue part of a webhook invocation: re-read the freshest row
for the conversation id, run the dialogue turn, persist its row update
and finalization insert, persist the outbound message. -/
def runTurn (phone body : List Char) (conversation : Conv) (s : Store) : Store :=
  let latestConv := (s.convs.find? (fun c => c.id == conversation.id)).getD conversation
  let r := getJerryResponse phone body latestConv
  saveMessage conversation.id phone (chars "assistant") r.reply (writeFin r.fin (writeConv r.conv s))

/-- The `/api/sms-webhook` processing of `index.js` for one inbound
`{From, Body}` event (the work done after the immediate
acknowledgment): get-or-create customer and conversation, persist the
inbound message, then the dialogue turn.  -/
def processWebhook (phone body : List Char) (s : Store) : Store :=
  let cs := getOrCreateConversation phone (getOrCreateCustomer phone s)
  runTurn phone body cs.1 (saveMessage cs.1.id phone (chars "user") body cs.2)

/-- The `/api/start-sms` campaign route: refuse when an active
conversation exists, otherwise create customer and conversation and
persist the outbound campaign message. -/
def startSms (phone body : List Char) (s : Store) : Store :=
  if hasActiveB phone s then s
  else
    let s1 := getOrCreateCustomer phone s
    let cs := getOrCreateConversation phone s1
    saveMessage cs.1.id phone (chars "assistant") body cs.2

/-- The `/api/manual-reply` route: get-or-create the conversation and
persist the operator's message (the dialogue engine is bypassed). -/
def manualReply (phone body : List Char) (s : Store) : Store :=
  let cs := getOrCreateConversation phone s
  saveMessage cs.1.id phone (chars "assistant") body cs.2

/-- The operations that reach the conversation tables. -/
inductive Op
  | webhook (phone body : List Char)
  | smsStart (phone body : List Char)
  | manual (phone body : List Char)
deriving Repr, DecidableEq

/-- Apply one operation. -/
def applyOp (s : Store) : Op → Store
  | .webhook p b => processWebhook p b s
  | .smsStart p b => startSms p b s
  | .manual p b => manualReply p b s

/-- Apply a sequence of operations to a store. -/
def applyOps (ops : List Op) (s : Store) : Store :=
  ops.foldl applyOp s

/-- Number of active conversations stored for a phone. -/
def countActive (phone : List Char) (s : Store) : Nat :=
  s.convs.countP (isActiveFor phone)

/-- Number of finalized rows (appointments plus callbacks). -/
def finCount (s : Store) : Nat :=
  s.appointments.length + s.callbacks.length

/-! ## Attributed finalization events

The appointments and callbacks tables of `index.js` carry no
conversation column (`saveAppointment`/`saveCallback` insert
`customer_phone, customer_name, vehicle_type, budget, budget_amount,
datetime` only), so a row is attributable to a conversation exactly by
the dialogue turn that performed the insert.  The instrumented
semantics below runs the same store transitions and additionally
records, for each finalization insert, the id of the conversation
whose turn inserted it. -/

/-- The attributed events of one finalization insert: one event naming
the inserting conversation for an insert, none otherwise. -/
def finEvts (cid : Nat) (f : Option FinRec) : List (Nat × FinRec) :=
  match f with
  | some r => [(cid, r)]
  | none => []

/-- `runTurn` with the finalization insert of the turn also reported as
an event attributed to the conversation the turn ran for. -/
def runTurnEv (phone body : List Char) (conversation : Conv) (s : Store) :
    Store × List (Nat × FinRec) :=
  let latestConv := (s.convs.find? (fun c => c.id == conversation.id)).getD conversation
  let r := getJerryResponse phone body latestConv
  (saveMessage conversation.id phone (chars "assistant") r.reply (writeFin r.fin (writeConv r.conv s)),
    finEvts conversation.id r.fin)

/-- `processWebhook` with the attributed finalization events of the
turn. -/
def processWebhookEv (phone body : List Char) (s : Store) : Store × List (Nat × FinRec) :=
  let cs := getOrCreateConversation phone (getOrCreateCustomer phone s)
  runTurnEv phone body cs.1 (saveMessage cs.1.id phone (chars "user") body cs.2)

/-- Apply one operation, reporting the attributed finalization events
(only a webhook turn can finalize). -/
def applyOpEv (s : Store) : Op → Store × List (Nat × FinRec)
  | .webhook p b => processWebhookEv p b s
  | .smsStart p b => (startSms p b s, [])
  | .manual p b => (manualReply p b s, [])

/-- Apply a sequence of operations, accumulating the attributed
finalization events in order. -/
def applyOpsEv (ops : List Op) (s : Store) (evs : List (Nat × FinRec)) :
    Store × List (Nat × FinRec) :=
  match ops with
  | [] => (s, evs)
  | op :: rest => applyOpsEv rest (applyOpEv s op).1 (evs ++ (applyOpEv s op).2)

/-! ## The webhook's event order (`/api/sms-webhook` in `index.js`) -/

/-- The externally visible actions of a webhook invocation, in program
order. -/
inductive Ev
  | ack
  | storeRead
  | storeWrite
  | dialogue
  | smsSend
  | emailSend
deriving Repr, DecidableEq

/-- The ordered action trace of one `/api/sms-webhook` invocation in
`index.js`: the empty TwiML acknowledgment is sent first, then the
handler runs get-or-create customer (select, insert when new),
get-or-create conversation (select, then touch or insert), the inbound
message insert, the `updated_at` touch, the analytics insert, the
conversation re-read, the dialogue turn, the outbound message insert,
the Twilio send and the email notification. -/
def webhookEvTrace (phone : List Char) (s : Store) : List Ev :=
  [Ev.ack]
  ++ (Ev.storeRead :: (if s.customers.contains phone then [] else [Ev.storeWrite]))
  ++ (Ev.storeRead :: (if (s.convs.find? (isActiveFor phone)).isSome
        then [Ev.storeWrite] else [Ev.storeWrite]))
  ++ [Ev.storeWrite]
  ++ [Ev.storeWrite]
  ++ [Ev.storeWrite]
  ++ [Ev.storeRead]
  ++ [Ev.dialogue]
  ++ [Ev.storeWrite]
  ++ [Ev.smsSend]
  ++ [Ev.emailSend]

/-! ## The dialogue engine of the full server variant (`part_001`)

This variant carries the complete stage ladder
`greeting → budget → appointment → name → datetime → confirmed` and the
elaborate budget extraction (`k` suffix, thousands separators,
bucketing). -/

namespace V1

/-- `(budgetAmount / 1000).toFixed(0)`: the amount in thousands, rounded
to the nearest integer. -/
def toFixed0k (a : Nat) : List Char := natDigits ((a + 500) / 1000)

/-- The inline budget-amount extraction of the `part_001` budget stage:
take the first run of digits (`message.match(/\d+/g)`, first element);
multiply by 1000 when the message contains a `k` and the number is
below 1000; when the message contains a comma, re-extract the first
digit run from the comma-stripped text and prefer it.  `0` plays the
role of the JS falsy "no amount". -/
def extractBudgetAmount (message : List Char) : Nat :=
  let lowerMsg := toLowerJS message
  match firstDigitRun message with
  | none => 0
  | some run =>
    let a0 := digitsVal run
    let a1 := if hasSub lowerMsg (chars "k") && decide (a0 < 1000) then a0 * 1000 else a0
    if message.contains ',' then
      match firstDigitRun (message.filter (fun c => !(c == ','))) with
      | some run2 => digitsVal run2
      | none => a1
    else a1

/-- The display bucket of a budget amount: below 30000 is "Under $30k",
30000 to 50000 inclusive is "$30k-$50k", above is "$50k+". -/
def budgetRange (a : Nat) : List Char :=
  if a < 30000 then chars "Under $30k"
  else if 30000 ≤ a ∧ a ≤ 50000 then chars "$30k-$50k"
  else chars "$50k+"

/-! Reply texts of the `part_001` dialogue engine, one constant per
return statement. -/

namespace RV

def unsub : List Char := chars "You\x27ve been unsubscribed. Reply START to resume."

def location : List Char :=
  chars "We\x27re located in Calgary, Alberta, and we deliver vehicles all across Canada! 🇨🇦 If you\x27d like specific dealership details or directions, I can have a manager call you back shortly. Just let me know!"

def details : List Char :=
  chars "I\x27d be happy to have one of our managers reach out to you with all the details! What\x27s the best time to call you? (e.g., Tomorrow at 2pm, This afternoon, Friday morning)"

def suv : List Char :=
  chars "Great choice! SUVs are very popular. What\x27s your budget range? (e.g., $15k, $25k, $40k, $60k+)"

def truck : List Char :=
  chars "Awesome! Trucks are great. What\x27s your budget range? (e.g., $15k, $25k, $40k, $60k+)"

def sedan : List Char :=
  chars "Perfect! Sedans are reliable. What\x27s your budget range? (e.g., $15k, $25k, $40k, $60k+)"

def generic : List Char :=
  chars "Great! What\x27s your budget range? (e.g., $15k, $25k, $40k, $60k+)"

def askVehicle : List Char :=
  chars "What type of vehicle interests you? We have SUVs, Trucks, Sedans, Coupes, and more!"

def budgetOk (v : Option (List Char)) (a : Nat) : List Char :=
  chars "Perfect! I have some great " ++ tmpl v ++ chars "s around $" ++ toFixed0k a ++
    chars "k. Would you like to:\n1️⃣ Book a test drive\n2️⃣ Schedule a call back\nJust reply 1 or 2!"

def budgetCheap : List Char :=
  chars "Got it! I have great budget-friendly options. Would you like to:\n1️⃣ Book a test drive\n2️⃣ Schedule a call back\nReply 1 or 2!"

def budgetHigh : List Char :=
  chars "Excellent! I have some premium options. Would you like to:\n1️⃣ Book a test drive\n2️⃣ Schedule a call back\nReply 1 or 2!"

def budgetAsk : List Char :=
  chars "What\x27s your budget? Just give me a number like $15k, $20k, $40k, etc."

def nameTD : List Char := chars "Awesome! What\x27s your name?"

def nameCB : List Char := chars "Great! What\x27s your name?"

def menu : List Char :=
  chars "Would you like to:\n1️⃣ Book a test drive\n2️⃣ Schedule a call back\nJust reply 1 or 2!"

def niceTD (n : List Char) : List Char :=
  chars "Nice to meet you, " ++ n ++
    chars "! When works best for your test drive? (e.g., Tomorrow afternoon, Saturday morning, Next week)"

def niceCB (n : List Char) : List Char :=
  chars "Nice to meet you, " ++ n ++
    chars "! When\x27s the best time to call you? (e.g., Tomorrow at 2pm, Friday morning, This evening)"

def tdBooked (n m : List Char) : List Char :=
  chars "✅ Perfect " ++ n ++ chars "! I\x27ve booked your test drive for " ++ m ++
    chars ".\n\n📍 We\x27re in Calgary, Alberta and we deliver all across Canada!\n📧 Confirmation sent!\n\nLooking forward to seeing you! Reply STOP to opt out."

def cbBooked (n m : List Char) (v : Option (List Char)) : List Char :=
  chars "✅ Got it " ++ n ++ chars "! One of our managers will call you " ++ m ++
    chars " with all the details.\n\nWe\x27re excited to help you find your perfect " ++ tmpl v ++
    chars "!\n\nTalk soon! Reply STOP to opt out."

def confirmed (n : List Char) (dt : Option (List Char)) : List Char :=
  chars "Thanks " ++ n ++ chars "! We\x27re all set for " ++ tmpl dt ++
    chars ". If you need anything or want to reschedule, just let me know! We\x27re located in Calgary, AB and deliver across Canada."

def fallback : List Char :=
  chars "Thanks for your message! To help you better, let me know:\n• What type of vehicle? (SUV, Sedan, Truck)\n• Your budget? (e.g., $20k)\n• Test drive or callback?"

end RV

/-- The `appointmentData` object of the `part_001` datetime branch
(fields straight from the stale conversation row, datetime is the raw
message). -/
def mkApptData (phone : List Char) (c : Conv) (msg : List Char) : FinRec :=
  { isAppointment := c.intent = some (chars "test_drive"),
    phone := phone, name := c.customer_name, vehicleType := c.vehicle_type,
    budget := c.budget, budgetAmount := c.budget_amount, datetime := msg }

/-- The name computed by the `part_001` name stage: text after a
"my name is" / "i'm" / "i am" pattern (whole trimmed message when no
pattern matches), first letter capitalized. -/
def nameOf (msg : List Char) : List Char :=
  capFirst
    (if hasSub (toLowerJS msg) (chars "my name is") then
      trimJS ((part1Lit (chars "my name is") msg).getD [])
    else if hasSub (toLowerJS msg) (chars "i\x27m") then
      trimJS ((part1Lit (chars "i\x27m") msg).getD [])
    else if hasSub (toLowerJS msg) (chars "i am") then
      trimJS ((part1Lit (chars "i am") msg).getD [])
    else trimJS msg)

/-- The greeting-stage logic of `part_001`: SUV/Truck/Sedan keyword,
generic interest keywords, else re-prompt. -/
def greetingLogic (msg : List Char) (c : Conv) : StepResult :=
  if hasSub (toLowerJS msg) (chars "suv") then
    { reply := RV.suv,
      conv := { c with vehicle_type := some (chars "SUV"), stage := some (chars "budget") },
      fin := none }
  else if hasSub (toLowerJS msg) (chars "truck") then
    { reply := RV.truck,
      conv := { c with vehicle_type := some (chars "Truck"), stage := some (chars "budget") },
      fin := none }
  else if hasSub (toLowerJS msg) (chars "sedan") then
    { reply := RV.sedan,
      conv := { c with vehicle_type := some (chars "Sedan"), stage := some (chars "budget") },
      fin := none }
  else if hasSub (toLowerJS msg) (chars "car") || hasSub (toLowerJS msg) (chars "vehicle") ||
      hasSub (toLowerJS msg) (chars "yes") || hasSub (toLowerJS msg) (chars "interested") ||
      hasSub (toLowerJS msg) (chars "want") || hasSub (toLowerJS msg) (chars "looking") then
    { reply := RV.generic,
      conv := { c with vehicle_type := some (chars "Vehicle"), stage := some (chars "budget") },
      fin := none }
  else
    { reply := RV.askVehicle, conv := c, fin := none }

/-- The budget-stage logic of `part_001`: numeric amount (with `k` and
comma handling) bucketed and persisted, else qualitative keywords, else
re-prompt. -/
def budgetLogic (msg : List Char) (c : Conv) : StepResult :=
  if 0 < extractBudgetAmount msg then
    { reply := RV.budgetOk c.vehicle_type (extractBudgetAmount msg),
      conv := { c with budget := some (budgetRange (extractBudgetAmount msg)), budget_amount := some (extractBudgetAmount msg), stage := some (chars "appointment") },
      fin := none }
  else if hasSub (toLowerJS msg) (chars "cheap") || hasSub (toLowerJS msg) (chars "low") ||
      hasSub (toLowerJS msg) (chars "budget") then
    { reply := RV.budgetCheap,
      conv := { c with budget := some (chars "Under $30k"), stage := some (chars "appointment") },
      fin := none }
  else if hasSub (toLowerJS msg) (chars "high") || hasSub (toLowerJS msg) (chars "premium") ||
      hasSub (toLowerJS msg) (chars "luxury") then
    { reply := RV.budgetHigh,
      conv := { c with budget := some (chars "$50k+"), stage := some (chars "appointment") },
      fin := none }
  else
    { reply := RV.budgetAsk, conv := c, fin := none }

/-- The appointment-stage logic of `part_001`: "1"/test/drive keywords
pick `test_drive`, "2"/call/phone/talk pick `callback`, both advance to
`name`; else the menu re-prompt. -/
def appointmentLogic (msg : List Char) (c : Conv) : StepResult :=
  if hasSub (toLowerJS msg) (chars "1") || hasSub (toLowerJS msg) (chars "test") ||
      hasSub (toLowerJS msg) (chars "drive") || hasSub (toLowerJS msg) (chars "appointment") ||
      hasSub (toLowerJS msg) (chars "visit") then
    { reply := RV.nameTD,
      conv := { c with intent := some (chars "test_drive"), stage := some (chars "name") },
      fin := none }
  else if hasSub (toLowerJS msg) (chars "2") || hasSub (toLowerJS msg) (chars "call") ||
      hasSub (toLowerJS msg) (chars "phone") || hasSub (toLowerJS msg) (chars "talk") then
    { reply := RV.nameCB,
      conv := { c with intent := some (chars "callback"), stage := some (chars "name") },
      fin := none }
  else
    { reply := RV.menu, conv := c, fin := none }

/-- The name-stage logic of `part_001`: persist `nameOf msg`, advance
to `datetime`, the reply branching on the stored intent. -/
def nameLogic (msg : List Char) (c : Conv) : StepResult :=
  { reply :=
      (if c.intent = some (chars "test_drive") then RV.niceTD (nameOf msg) else RV.niceCB (nameOf msg)),
    conv := { c with customer_name := some (nameOf msg), stage := some (chars "datetime") },
    fin := none }

/-- The datetime-stage logic of `part_001`: store the raw message as
the datetime, mark `confirmed`/`converted`, and finalize into the
table selected by the intent. -/
def datetimeLogic (phone msg : List Char) (c : Conv) : StepResult :=
  { reply :=
      (if c.intent = some (chars "test_drive") then RV.tdBooked (tmpl c.customer_name) msg
       else RV.cbBooked (tmpl c.customer_name) msg c.vehicle_type),
    conv := { c with datetime := some msg, stage := some (chars "confirmed"), status := chars "converted" },
    fin := some (mkApptData phone c msg) }

/-- `getJerryResponse` from the `part_001` server variant, embedded as
a pure function: exact-match opt-out, location and details interrupts,
then the guarded stage ladder (conventions as for the `index.js`
embedding). -/
def getJerryResponse (phone msg : List Char) (c : Conv) : StepResult :=
  if toLowerJS msg = chars "stop" then
    { reply := RV.unsub, conv := { c with status := chars "stopped" }, fin := none }
  else if hasSub (toLowerJS msg) (chars "location") || hasSub (toLowerJS msg) (chars "where") ||
      hasSub (toLowerJS msg) (chars "address") || hasSub (toLowerJS msg) (chars "dealership") ||
      hasSub (toLowerJS msg) (chars "calgary") || hasSub (toLowerJS msg) (chars "alberta") then
    { reply := RV.location, conv := c, fin := none }
  else if hasSub (toLowerJS msg) (chars "detail") || hasSub (toLowerJS msg) (chars "more info") ||
      hasSub (toLowerJS msg) (chars "tell me more") ||
      (hasSub (toLowerJS msg) (chars "manager") && hasSub (toLowerJS msg) (chars "call")) then
    { reply := RV.details, conv := c, fin := none }
  else if c.stage = some (chars "greeting") ∨ isFalsy c.vehicle_type then
    greetingLogic msg c
  else if c.stage = some (chars "budget") ∧ isFalsy c.budget then
    budgetLogic msg c
  else if c.stage = some (chars "appointment") ∧ isFalsy c.intent then
    appointmentLogic msg c
  else if c.stage = some (chars "name") ∧ isFalsy c.customer_name then
    nameLogic msg c
  else if c.stage = some (chars "datetime") ∧ isFalsy c.datetime then
    datetimeLogic phone msg c
  else if c.stage = some (chars "confirmed") then
    { reply := RV.confirmed (tmpl c.customer_name) c.datetime, conv := c, fin := none }
  else
    { reply := RV.fallback, conv := c, fin := none }


/-- The stage ladder position of a conversation row, in the required
order `greeting → budget → appointment → name → datetime → confirmed`
(`greeting` and any unexpected value sit at position 0). -/
def stageIdx (c : Conv) : Nat :=
  if c.stage = some (chars "budget") then 1
  else if c.stage = some (chars "appointment") then 2
  else if c.stage = some (chars "name") then 3
  else if c.stage = some (chars "datetime") then 4
  else if c.stage = some (chars "confirmed") then 5
  else 0

/-- The rows a conversation passes through when a sequence of inbound
messages is processed turn by turn, starting row included. -/
def runTrace (phone : List Char) : Conv → List (List Char) → List Conv
  | c, [] => [c]
  | c, m :: ms => c :: runTrace phone (getJerryResponse phone m c).conv ms

end V1

/-! ## Basic lemmas about the string model -/

/-- Every character of a prefix occurs in the longer text. -/
theorem mem_of_isPrefOf {n h : List Char} (hp : isPrefOf n h = true) : ∀ x ∈ n, x ∈ h := by
  induction n generalizing h with
  | nil => intro x hx; exact absurd hx (List.not_mem_nil x)
  | cons a as ih =>
    cases h with
    | nil => simp [isPrefOf] at hp
    | cons b bs =>
      rw [isPrefOf, Bool.and_eq_true, beq_iff_eq] at hp
      intro x hx
      rcases List.mem_cons.mp hx with hxa | hx2
      · rw [hxa, hp.1]; exact List.mem_cons_self _ _
      · exact List.mem_cons_of_mem _ (ih hp.2 x hx2)

/-- Every character of a contained substring occurs in the text. -/
theorem mem_of_hasSub {h n : List Char} (hs : hasSub h n = true) : ∀ x ∈ n, x ∈ h := by
  induction h with
  | nil =>
    rw [hasSub] at hs
    intro x hx
    rw [List.isEmpty_iff] at hs
    rw [hs] at hx
    exact absurd hx (List.not_mem_nil x)
  | cons a t ih =>
    rw [hasSub, Bool.or_eq_true] at hs
    rcases hs with hp | hrec
    · exact mem_of_isPrefOf hp
    · intro x hx
      exact List.mem_cons_of_mem _ (ih hrec x hx)

/-- Lowercasing leaves a non-letter unchanged. -/
theorem lcChar_of_not_alpha {c : Char} (h : isAlphaC c = false) : lcChar c = c := by
  unfold isAlphaC at h
  rw [lcChar, if_neg]
  intro hAZ
  rw [if_pos (Or.inr hAZ)] at h
  exact Bool.true_eq_false.mp h

/-- A message without letters cannot contain a pattern that holds the
letter `m`, even after lowercasing. -/
theorem hasSub_lower_eq_false {msg pat : List Char}
    (hall : msg.all (fun c => !(isAlphaC c)) = true) (hm : 'm' ∈ pat) :
    hasSub (toLowerJS msg) pat = false := by
  by_contra hc
  rw [Bool.not_eq_false] at hc
  have hmem : ('m' : Char) ∈ toLowerJS msg := mem_of_hasSub hc _ hm
  rw [toLowerJS] at hmem
  obtain ⟨c, hcm, hlc⟩ := List.mem_map.mp hmem
  have hna : isAlphaC c = false := by
    have h2 := List.all_eq_true.mp hall c hcm
    simpa using h2
  rw [lcChar_of_not_alpha hna] at hlc
  rw [hlc] at hna
  exact absurd hna (by decide)

/-- A message without digits has no digit run. -/
theorem firstDigitRun_eq_none {msg : List Char}
    (h : msg.all (fun c => !(isDigitC c)) = true) : firstDigitRun msg = none := by
  induction msg with
  | nil => rfl
  | cons c t ih =>
    rw [List.all_cons, Bool.and_eq_true] at h
    have hc : isDigitC c = false := by simpa using h.1
    rw [firstDigitRun, hc]
    simpa using ih h.2

/-! ## Claim theorems: the extraction utilities -/

/-- C6.  Name extraction matches "my name is X" / "i'm X" / "i am X"
case-insensitively, takes the text after the matched phrase trimmed
with non-letter characters stripped, capitalizes the first letter and
lowercases the rest — so "my name is john smith" yields "John smith" —
and returns null (without failing) on any message without letters. -/
theorem extractName_spec :
    extractNameFromMessage (chars "my name is john smith") = some (chars "John smith") ∧
    extractNameFromMessage (chars "I\x27m Bob!") = some (chars "Bob") ∧
    extractNameFromMessage (chars "i am JANE") = some (chars "Jane") ∧
    (∀ msg : List Char, msg.all (fun c => !(isAlphaC c)) = true →
      extractNameFromMessage msg = none) := by
  refine ⟨by decide, by decide, by decide, ?_⟩
  intro msg hall
  have hA := hasSub_lower_eq_false hall (show 'm' ∈ chars "my name is" by decide)
  have hB := hasSub_lower_eq_false hall (show 'm' ∈ chars "i\x27m " by decide)
  have hC := hasSub_lower_eq_false hall (show 'm' ∈ chars "im " by decide)
  have hD := hasSub_lower_eq_false hall (show 'm' ∈ chars "i am " by decide)
  simp [extractNameFromMessage, hA, hB, hC, hD]

/-- Closed instance of `extractName_spec`: a message with no letters
yields no name. -/
theorem extractName_spec_witness :
    (chars "123 !!").all (fun c => !(isAlphaC c)) = true ∧
    extractNameFromMessage (chars "123 !!") = none :=
  ⟨by decide, extractName_spec.2.2.2 (chars "123 !!") (by decide)⟩

/-- C5.  Budget extraction (the `part_001` budget stage): first run of
digits, times 1000 under a `k` suffix with a value below 1000, comma
re-extraction preferred, bucketed as Under $30k / $30k-$50k / $50k+,
and no amount when the message has no digits ("15k" gives 15000,
"$45,000" gives 45000 in "$30k-$50k", "70000" gives 70000 in "$50k+",
"no idea" gives no amount). -/
theorem extractBudgetAmount_spec :
    V1.extractBudgetAmount (chars "15k") = 15000 ∧
    V1.extractBudgetAmount (chars "$45,000") = 45000 ∧
    V1.budgetRange 45000 = chars "$30k-$50k" ∧
    V1.extractBudgetAmount (chars "70000") = 70000 ∧
    V1.budgetRange 70000 = chars "$50k+" ∧
    V1.extractBudgetAmount (chars "no idea") = 0 ∧
    (∀ msg : List Char, msg.all (fun c => !(isDigitC c)) = true →
      V1.extractBudgetAmount msg = 0) ∧
    (∀ a : Nat, (a < 30000 → V1.budgetRange a = chars "Under $30k") ∧
      (30000 ≤ a → a ≤ 50000 → V1.budgetRange a = chars "$30k-$50k") ∧
      (50000 < a → V1.budgetRange a = chars "$50k+")) := by
  refine ⟨by decide, by decide, by decide, by decide, by decide, by decide, ?_, ?_⟩
  · intro msg h
    unfold V1.extractBudgetAmount
    rw [firstDigitRun_eq_none h]
  · intro a
    refine ⟨fun h => ?_, fun h1 h2 => ?_, fun h => ?_⟩
    · rw [V1.budgetRange, if_pos h]
    · rw [V1.budgetRange, if_neg (by omega), if_pos ⟨h1, h2⟩]
    · rw [V1.budgetRange, if_neg (by omega), if_neg (by omega)]

/-- Closed instance of `extractBudgetAmount_spec`: a digit-free message
yields no amount, and boundary values land in their buckets. -/
theorem extractBudgetAmount_spec_witness :
    V1.extractBudgetAmount (chars "cheap please") = 0 ∧
    V1.budgetRange 29999 = chars "Under $30k" ∧
    V1.budgetRange 30000 = chars "$30k-$50k" ∧
    V1.budgetRange 50000 = chars "$30k-$50k" ∧
    V1.budgetRange 50001 = chars "$50k+" :=
  ⟨extractBudgetAmount_spec.2.2.2.2.2.2.1 (chars "cheap please") (by decide),
   (extractBudgetAmount_spec.2.2.2.2.2.2.2 29999).1 (by decide),
   (extractBudgetAmount_spec.2.2.2.2.2.2.2 30000).2.1 (by decide) (by decide),
   (extractBudgetAmount_spec.2.2.2.2.2.2.2 50000).2.1 (by decide) (by decide),
   (extractBudgetAmount_spec.2.2.2.2.2.2.2 50001).2.2 (by decide)⟩

/-- The closed normalization vocabulary of `normalizeVagueDatetime`. -/
def vagueVocab : List (List Char) :=
  [chars "Today morning", chars "Today afternoon", chars "Today evening",
   chars "Tomorrow morning", chars "Tomorrow afternoon", chars "Tomorrow evening",
   chars "This weekend", chars "Next week"]

/-- A message that contains none of the casual scheduling phrases
`normalizeVagueDatetime` looks for. -/
abbrev NoVagueTrigger (msg : List Char) : Prop :=
  hasSub (trimJS (toLowerJS msg)) (chars "today") = false ∧
  hasSub (trimJS (toLowerJS msg)) (chars "tomorrow") = false ∧
  hasSub (trimJS (toLowerJS msg)) (chars "this weekend") = false ∧
  hasSub (trimJS (toLowerJS msg)) (chars "weekend") = false ∧
  hasSub (trimJS (toLowerJS msg)) (chars "next week") = false ∧
  hasSub (trimJS (toLowerJS msg)) (chars "this morning") = false ∧
  hasSub (trimJS (toLowerJS msg)) (chars "this afternoon") = false ∧
  hasSub (trimJS (toLowerJS msg)) (chars "this evening") = false ∧
  hasSub (trimJS (toLowerJS msg)) (chars "tonight") = false

/-- C7.  Vague-datetime normalization maps the casual phrases onto the
closed vocabulary ("tomorrow morning" gives "Tomorrow morning",
weekend and next-week phrases give "This weekend" / "Next week"), its
output is always the original text or a vocabulary element, and a
message containing none of the trigger phrases passes through
unchanged. -/
theorem normalizeVagueDatetime_spec :
    normalizeVagueDatetime (chars "tomorrow morning") = chars "Tomorrow morning" ∧
    normalizeVagueDatetime (chars "this weekend") = chars "This weekend" ∧
    normalizeVagueDatetime (chars "next week") = chars "Next week" ∧
    (∀ msg : List Char, normalizeVagueDatetime msg = msg ∨
      normalizeVagueDatetime msg ∈ vagueVocab) ∧
    (∀ msg : List Char, NoVagueTrigger msg → normalizeVagueDatetime msg = msg) := by
  refine ⟨by decide, by decide, by decide, ?_, ?_⟩
  · intro msg
    simp only [normalizeVagueDatetime]
    repeat' split
    all_goals first
      | exact Or.inl rfl
      | exact Or.inr (by decide)
  · intro msg hn
    obtain ⟨h1, h2, h3, h4, h5, h6, h7, h8, h9⟩ := hn
    simp [normalizeVagueDatetime, h1, h2, h3, h4, h5, h6, h7, h8, h9]

/-- Closed instance of `normalizeVagueDatetime_spec`: text with no
trigger phrase is returned unchanged. -/
theorem normalizeVagueDatetime_spec_witness :
    NoVagueTrigger (chars "Friday at 3pm") ∧
    normalizeVagueDatetime (chars "Friday at 3pm") = chars "Friday at 3pm" :=
  ⟨by decide, normalizeVagueDatetime_spec.2.2.2.2 (chars "Friday at 3pm") (by decide)⟩

/-! ## Claim theorems: the opt-out interrupt -/

/-- C8.  An inbound "STOP" at any stage sets the conversation status to
`stopped` and returns the terminal unsubscribe reply; the row is
exactly the old row with only `status` changed (stage, vehicle_type,
budget, budget_amount, intent, customer_name and datetime untouched),
and no finalization or stage logic runs. -/
theorem stopOptOut_frame (phone : List Char) (c : Conv) :
    getJerryResponse phone (chars "STOP") c =
      { reply := R.unsub, conv := { c with status := chars "stopped" }, fin := none } := rfl

/-- C10.  The opt-out interrupt fires on substring containment: any
message whose lowercase form contains "stop" anywhere — also inside a
longer word — stops the conversation and returns the unsubscribe
reply, whatever the stage. -/
theorem stopSubstring_interrupt (phone msg : List Char) (c : Conv)
    (h : hasSub (toLowerJS msg) (chars "stop") = true) :
    getJerryResponse phone msg c =
      { reply := R.unsub, conv := { c with status := chars "stopped" }, fin := none } := by
  simp [getJerryResponse, globalInterrupts, h]

/-- Closed instance of `stopSubstring_interrupt`: "Unstoppable!"
contains "stop" and stops a fresh conversation. -/
theorem stopSubstring_interrupt_witness :
    hasSub (toLowerJS (chars "Unstoppable!")) (chars "stop") = true ∧
    getJerryResponse (chars "+14035550100") (chars "Unstoppable!")
        (freshConv 1 (chars "+14035550100")) =
      { reply := R.unsub,
        conv := { freshConv 1 (chars "+14035550100") with status := chars "stopped" },
        fin := none } :=
  ⟨by decide, stopSubstring_interrupt _ _ _ (by decide)⟩

/-! ## Claim theorems: webhook acknowledgment order (`index.js`) -/

/-- C9.  In every `/api/sms-webhook` invocation the empty provider
acknowledgment is emitted first: it heads the action trace, occurs
nowhere later, and every store read/write, the dialogue turn and the
outbound send lie strictly after it. -/
theorem webhook_ack_first (phone : List Char) (s : Store) :
    (webhookEvTrace phone s).head? = some Ev.ack ∧
    Ev.ack ∉ (webhookEvTrace phone s).tail ∧
    Ev.dialogue ∈ (webhookEvTrace phone s).tail ∧
    Ev.smsSend ∈ (webhookEvTrace phone s).tail ∧
    Ev.storeRead ∈ (webhookEvTrace phone s).tail ∧
    Ev.storeWrite ∈ (webhookEvTrace phone s).tail := by
  unfold webhookEvTrace
  rw [ite_self]
  by_cases hc : s.customers.contains phone
  · rw [if_pos hc]
    exact ⟨rfl, by decide, by decide, by decide, by decide, by decide⟩
  · rw [if_neg hc]
    exact ⟨rfl, by decide, by decide, by decide, by decide, by decide⟩

/-! ## Frame lemmas for the `index.js` dialogue turn -/

/-- A dialogue turn never changes the row's id or phone. -/
theorem globalInterrupts_frame {msg : List Char} {c : Conv} {r : StepResult}
    (h : globalInterrupts msg c = some r) :
    r.conv.id = c.id ∧ r.conv.phone = c.phone ∧ r.conv.budget = c.budget ∧
    r.conv.stage = c.stage ∧ r.fin = none := by
  unfold globalInterrupts at h
  repeat' split at h
  all_goals first
    | (injection h with h2; exact h2 ▸ ⟨rfl, rfl, rfl, rfl, rfl⟩)
    | simp at h

/-- The greeting-stage logic only writes vehicle_type and stage. -/
theorem greetingLogic_frame (msg : List Char) (c : Conv) :
    (greetingLogic msg c).conv.id = c.id ∧ (greetingLogic msg c).conv.phone = c.phone ∧
    (greetingLogic msg c).conv.budget = c.budget ∧ (greetingLogic msg c).fin = none := by
  unfold greetingLogic
  split
  all_goals exact ⟨rfl, rfl, rfl, rfl⟩

/-- The budget-stage logic never finalizes and keeps id and phone. -/
theorem budgetLogic_frame (msg : List Char) (c : Conv) :
    (budgetLogic msg c).conv.id = c.id ∧ (budgetLogic msg c).conv.phone = c.phone ∧
    (budgetLogic msg c).fin = none := by
  unfold budgetLogic
  repeat' split
  all_goals exact ⟨rfl, rfl, rfl⟩

/-- The intent-stage logic never finalizes and keeps id and phone. -/
theorem intentLogic_frame (msg : List Char) (c : Conv) :
    (intentLogic msg c).conv.id = c.id ∧ (intentLogic msg c).conv.phone = c.phone ∧
    (intentLogic msg c).fin = none := by
  unfold intentLogic
  repeat' split
  all_goals exact ⟨rfl, rfl, rfl⟩

/-- The datetime-stage logic keeps id and phone. -/
theorem datetimeLogic_frame (phone msg : List Char) (c : Conv) :
    (datetimeLogic phone msg c).conv.id = c.id ∧
    (datetimeLogic phone msg c).conv.phone = c.phone := by
  unfold datetimeLogic
  split
  all_goals exact ⟨rfl, rfl⟩

/-- The confirmed-stage logic never finalizes and keeps id and phone. -/
theorem confirmedLogic_frame (msg : List Char) (c : Conv) :
    (confirmedLogic msg c).conv.id = c.id ∧ (confirmedLogic msg c).conv.phone = c.phone ∧
    (confirmedLogic msg c).fin = none := by
  unfold confirmedLogic
  repeat' split
  all_goals exact ⟨rfl, rfl, rfl⟩

/-- The stage ladder keeps id and phone. -/
theorem stageLogic_id_phone (phone msg : List Char) (c : Conv) :
    (stageLogic phone msg c).conv.id = c.id ∧ (stageLogic phone msg c).conv.phone = c.phone := by
  unfold stageLogic
  repeat' split
  · exact ⟨(greetingLogic_frame msg c).1, (greetingLogic_frame msg c).2.1⟩
  · exact ⟨(budgetLogic_frame msg c).1, (budgetLogic_frame msg c).2.1⟩
  · exact ⟨(intentLogic_frame msg c).1, (intentLogic_frame msg c).2.1⟩
  · exact datetimeLogic_frame phone msg c
  · exact ⟨(confirmedLogic_frame msg c).1, (confirmedLogic_frame msg c).2.1⟩
  · exact ⟨rfl, rfl⟩

theorem getJerry_id_phone (phone msg : List Char) (c : Conv) :
    (getJerryResponse phone msg c).conv.id = c.id ∧
    (getJerryResponse phone msg c).conv.phone = c.phone := by
  unfold getJerryResponse
  cases hgi : globalInterrupts msg c with
  | some r =>
    obtain ⟨h1, h2, _, _, _⟩ := globalInterrupts_frame hgi
    exact ⟨h1, h2⟩
  | none => exact stageLogic_id_phone phone msg c

/-- A row that has no budget yet can never finalize: the budget stage
guard catches it first. -/
theorem getJerry_fin_none_of_budget_none (phone msg : List Char) (c : Conv)
    (hb : c.budget = none) : (getJerryResponse phone msg c).fin = none := by
  have hbt : isFalsy c.budget = true := by rw [hb]; rfl
  unfold getJerryResponse
  cases hgi : globalInterrupts msg c with
  | some r => exact (globalInterrupts_frame hgi).2.2.2.2
  | none =>
    show (stageLogic phone msg c).fin = none
    unfold stageLogic
    repeat' split
    all_goals first
      | exact (greetingLogic_frame msg c).2.2.2
      | exact (budgetLogic_frame msg c).2.2
      | rfl
      | exact absurd (Or.inr hbt :
          jsOr c.stage (chars "greeting") = chars "budget" ∨ isFalsy c.budget = true)
          (by assumption)

/-- Ground fact used to reduce `jsOr` on the literal stage value. -/
theorem chars_greeting_not_empty : (chars "greeting").isEmpty = false := by decide

/-- A turn taken at stage `greeting` leaves the budget column empty:
the greeting branch answers before any budget logic runs. -/
theorem getJerry_budget_none_of_greeting (phone msg : List Char) (c : Conv)
    (hs : c.stage = some (chars "greeting")) (hb : c.budget = none) :
    (getJerryResponse phone msg c).conv.budget = none := by
  have hsg : jsOr c.stage (chars "greeting") = chars "greeting" := by rw [hs]; rfl
  unfold getJerryResponse
  cases hgi : globalInterrupts msg c with
  | some r => exact (globalInterrupts_frame hgi).2.2.1.trans hb
  | none =>
    show (stageLogic phone msg c).conv.budget = none
    unfold stageLogic
    rw [if_pos (Or.inl hsg)]
    exact (greetingLogic_frame msg c).2.2.1.trans hb

/-! ## Claim theorems: webhook replay (`index.js`) -/

/-- C2.  Delivering the same `{from, body}` webhook payload twice in
sequence against a fresh conversation finalizes exactly as many
appointment/callback rows as delivering it once: a fresh conversation
cannot reach the datetime finalization within two turns, so both
counts are zero and the second delivery duplicates nothing. -/
theorem freshConv_id (i : Nat) (p : List Char) : (freshConv i p).id = i := rfl

theorem freshConv_phone (i : Nat) (p : List Char) : (freshConv i p).phone = p := rfl

theorem freshConv_budget (i : Nat) (p : List Char) : (freshConv i p).budget = none := rfl

theorem freshConv_stage (i : Nat) (p : List Char) :
    (freshConv i p).stage = some (chars "greeting") := rfl

theorem webhook_replay_idempotent (phone body : List Char) :
    finCount (processWebhook phone body (processWebhook phone body emptyStore)) =
      finCount (processWebhook phone body emptyStore) := by
  have h1 : (getJerryResponse phone body (freshConv 1 phone)).fin = none :=
    getJerry_fin_none_of_budget_none _ _ _ rfl
  have h2 : (getJerryResponse phone body (freshConv 1 phone)).conv.budget = none :=
    getJerry_budget_none_of_greeting _ _ _ rfl rfl
  have h3 : (getJerryResponse phone body (freshConv 1 phone)).conv.id = 1 :=
    (getJerry_id_phone _ _ _).1
  have h4 : (getJerryResponse phone body (freshConv 1 phone)).conv.phone = phone :=
    (getJerry_id_phone _ _ _).2
  have hS1 : processWebhook phone body emptyStore =
      { customers := [phone],
        convs := [(getJerryResponse phone body (freshConv 1 phone)).conv],
        messages := [{ conversationId := 1, phone := phone, role := chars "assistant", content := (getJerryResponse phone body (freshConv 1 phone)).reply }, { conversationId := 1, phone := phone, role := chars "user", content := body }],
        appointments := [], callbacks := [], nextId := 2 } := by
    simp [processWebhook, runTurn, getOrCreateCustomer, getOrCreateConversation, saveMessage,
      writeConv, writeFin, emptyStore, h1, h3, freshConv_id]
  rw [hS1]
  by_cases hst : (getJerryResponse phone body (freshConv 1 phone)).conv.status = chars "active"
  · have hact : isActiveFor phone (getJerryResponse phone body (freshConv 1 phone)).conv = true := by
      simp [isActiveFor, h4, hst]
    have h5 : (getJerryResponse phone body (getJerryResponse phone body (freshConv 1 phone)).conv).fin = none :=
      getJerry_fin_none_of_budget_none _ _ _ h2
    simp [processWebhook, runTurn, getOrCreateCustomer, getOrCreateConversation, saveMessage,
      writeConv, writeFin, finCount, hact, h5]
  · have hact : isActiveFor phone (getJerryResponse phone body (freshConv 1 phone)).conv = false := by
      simp [isActiveFor, h4]
      exact hst
    have h5 : (getJerryResponse phone body (freshConv 2 phone)).fin = none :=
      getJerry_fin_none_of_budget_none _ _ _ rfl
    simp [processWebhook, runTurn, getOrCreateCustomer, getOrCreateConversation, saveMessage,
      writeConv, writeFin, finCount, hact, h5, freshConv_id]

/-! ## Claim theorems: one active conversation per phone (`index.js`) -/

/-- The conversation-table invariants: at most one active row per
phone, ids below the sequence value, ids pairwise distinct. -/
def GoodStore (s : Store) : Prop :=
  (∀ P : List Char, countActive P s ≤ 1) ∧
  (∀ c ∈ s.convs, c.id < s.nextId) ∧
  s.convs.Pairwise (fun a b => a.id ≠ b.id)

theorem goodStore_empty : GoodStore emptyStore := by
  refine ⟨fun P => ?_, fun c hc => absurd hc (List.not_mem_nil c), List.Pairwise.nil⟩
  simp [countActive, emptyStore]

/-- In a distinct-id list, rows with equal ids coincide. -/
theorem eq_of_mem_of_id_eq {l : List Conv} (hp : l.Pairwise (fun a b => a.id ≠ b.id))
    {a b : Conv} (ha : a ∈ l) (hb : b ∈ l) (hid : a.id = b.id) : a = b := by
  by_contra hne
  have hsymm : Symmetric (fun a b : Conv => a.id ≠ b.id) := by
    intro x y hxy hyx
    exact hxy hyx.symm
  exact (hp.forall hsymm ha hb hne) hid

/-- A pointwise-pred-reflecting map cannot raise a `countP`. -/
theorem countP_map_le (l : List Conv) (f : Conv → Conv) (p : Conv → Bool)
    (h : ∀ c ∈ l, p (f c) = true → p c = true) :
    (l.map f).countP p ≤ l.countP p := by
  induction l with
  | nil => simp
  | cons a t ih =>
    rw [List.map_cons, List.countP_cons, List.countP_cons]
    have ht := ih (fun c hc => h c (List.mem_cons_of_mem _ hc))
    by_cases hpa : p (f a) = true
    · rw [if_pos hpa, if_pos (h a (List.mem_cons_self a t) hpa)]
      omega
    · rw [if_neg hpa]
      split <;> omega

/-- Looking up by id in a distinct-id table finds exactly the stored
row. -/
theorem find_by_id_eq {l : List Conv} (hp : l.Pairwise (fun a b => a.id ≠ b.id))
    {c0 : Conv} (hm : c0 ∈ l) : l.find? (fun c => c.id == c0.id) = some c0 := by
  cases hf : l.find? (fun c => c.id == c0.id) with
  | none =>
    have := List.find?_eq_none.mp hf c0 hm
    simp at this
  | some c =>
    have hcm := List.mem_of_find?_eq_some hf
    have hcp := List.find?_some hf
    rw [beq_iff_eq] at hcp
    rw [eq_of_mem_of_id_eq hp hcm hm hcp]

/-- Operations that only touch non-conversation tables keep the
invariants. -/
theorem goodStore_congr {s s2 : Store} (h : GoodStore s) (hc : s2.convs = s.convs)
    (hn : s2.nextId = s.nextId) : GoodStore s2 := by
  obtain ⟨h1, h2, h3⟩ := h
  refine ⟨fun P => ?_, fun c hcc => ?_, ?_⟩
  · have := h1 P
    unfold countActive at this ⊢
    rw [hc]
    exact this
  · rw [hc] at hcc
    rw [hn]
    exact h2 c hcc
  · rw [hc]
    exact h3

theorem convs_getOrCreateCustomer (phone : List Char) (s : Store) :
    (getOrCreateCustomer phone s).convs = s.convs ∧
    (getOrCreateCustomer phone s).nextId = s.nextId := by
  unfold getOrCreateCustomer
  split <;> exact ⟨rfl, rfl⟩

theorem convs_saveMessage (i : Nat) (p r ct : List Char) (s : Store) :
    (saveMessage i p r ct s).convs = s.convs ∧ (saveMessage i p r ct s).nextId = s.nextId :=
  ⟨rfl, rfl⟩

theorem convs_writeFin (f : Option FinRec) (s : Store) :
    (writeFin f s).convs = s.convs ∧ (writeFin f s).nextId = s.nextId := by
  unfold writeFin
  repeat' split
  all_goals exact ⟨rfl, rfl⟩

/-- Characterization of `getOrCreateConversation` when an active row
exists. -/
theorem getOrCreate_eq_some {phone : List Char} {s : Store} {c : Conv}
    (hf : s.convs.find? (isActiveFor phone) = some c) :
    getOrCreateConversation phone s = (c, s) := by
  unfold getOrCreateConversation
  rw [hf]

/-- Characterization of `getOrCreateConversation` when no active row
exists: a fresh active greeting-stage row is inserted. -/
theorem getOrCreate_eq_none {phone : List Char} {s : Store}
    (hf : s.convs.find? (isActiveFor phone) = none) :
    getOrCreateConversation phone s =
      (freshConv s.nextId phone,
        { s with convs := freshConv s.nextId phone :: s.convs, nextId := s.nextId + 1 }) := by
  unfold getOrCreateConversation
  rw [hf]

/-- `getOrCreateConversation` keeps the invariants, hands back an
active row for the phone, stored in the table it returns. -/
theorem goodStore_getOrCreate (phone : List Char) (s : Store) (h : GoodStore s) :
    GoodStore (getOrCreateConversation phone s).2 ∧
    (getOrCreateConversation phone s).1.status = chars "active" ∧
    (getOrCreateConversation phone s).1.phone = phone ∧
    (getOrCreateConversation phone s).1 ∈ (getOrCreateConversation phone s).2.convs := by
  cases hf : s.convs.find? (isActiveFor phone) with
  | some c =>
    rw [getOrCreate_eq_some hf]
    have hcm := List.mem_of_find?_eq_some hf
    have hcp := List.find?_some hf
    unfold isActiveFor at hcp
    rw [Bool.and_eq_true, beq_iff_eq, beq_iff_eq] at hcp
    exact ⟨h, hcp.2, hcp.1, hcm⟩
  | none =>
    rw [getOrCreate_eq_none hf]
    obtain ⟨h1, h2, h3⟩ := h
    refine ⟨⟨fun P => ?_, fun c hc => ?_, ?_⟩, rfl, rfl, List.mem_cons_self _ _⟩
    · unfold countActive
      dsimp only
      rw [List.countP_cons]
      by_cases hP : isActiveFor P (freshConv s.nextId phone) = true
      · have hPp : P = phone := by
          unfold isActiveFor freshConv at hP
          rw [Bool.and_eq_true, beq_iff_eq] at hP
          exact hP.1.symm
        subst hPp
        have hzero : s.convs.countP (isActiveFor P) = 0 := by
          refine List.countP_eq_zero.mpr ?_
          intro x hx
          exact List.find?_eq_none.mp hf x hx
        rw [hzero, if_pos hP]
      · rw [if_neg hP]
        have := h1 P
        unfold countActive at this
        omega
    · dsimp only at hc ⊢
      rcases List.mem_cons.mp hc with rfl | hc2
      · rw [freshConv_id]
        omega
      · have := h2 c hc2
        omega
    · dsimp only
      refine List.pairwise_cons.mpr ⟨fun b hb => ?_, h3⟩
      rw [freshConv_id]
      have := h2 b hb
      omega

/-- Writing back a turn's row update (same id, same phone, starting
from an active row) keeps the invariants. -/
theorem goodStore_writeConv {s : Store} {cOld c2 : Conv} (h : GoodStore s)
    (hmem : cOld ∈ s.convs) (hact : cOld.status = chars "active")
    (hid : c2.id = cOld.id) (hph : c2.phone = cOld.phone) :
    GoodStore (writeConv c2 s) := by
  obtain ⟨hcnt, hlt, hpw⟩ := h
  have hfix : ∀ c ∈ s.convs, (if c.id == c2.id then c2 else c).id = c.id := by
    intro c _
    by_cases hcc : c.id == c2.id
    · rw [if_pos hcc]
      rw [beq_iff_eq] at hcc
      exact hcc.symm
    · rw [if_neg hcc]
  refine ⟨fun P => ?_, fun c hc => ?_, ?_⟩
  · unfold writeConv countActive
    dsimp only
    have hle := countP_map_le s.convs (fun c => if c.id == c2.id then c2 else c)
        (isActiveFor P) ?_
    · have := hcnt P
      unfold countActive at this
      omega
    · intro c hc hfc
      beta_reduce at hfc
      by_cases hcc : c.id == c2.id
      · rw [if_pos hcc] at hfc
        rw [beq_iff_eq] at hcc
        have hceq : c = cOld := eq_of_mem_of_id_eq hpw hc hmem (hcc.trans hid)
        unfold isActiveFor at hfc ⊢
        rw [Bool.and_eq_true, beq_iff_eq] at hfc
        rw [Bool.and_eq_true, beq_iff_eq, beq_iff_eq]
        constructor
        · rw [hceq, ← hph]
          exact hfc.1
        · rw [hceq]
          exact hact
      · rw [if_neg hcc] at hfc
        exact hfc
  · unfold writeConv at hc
    dsimp only at hc
    obtain ⟨c0, hc0, rfl⟩ := List.mem_map.mp hc
    rw [hfix c0 hc0]
    exact hlt c0 hc0
  · unfold writeConv
    dsimp only
    rw [List.pairwise_map]
    refine hpw.imp_of_mem ?_
    intro a b ha hb hR
    show (if a.id == c2.id then c2 else a).id ≠ (if b.id == c2.id then c2 else b).id
    rw [hfix a ha, hfix b hb]
    exact hR

/-- One full dialogue turn (re-read, dialogue, write-back, message
inserts) keeps the invariants. -/
theorem goodStore_runTurn (phone body : List Char) (conversation : Conv) (s : Store)
    (h : GoodStore s) (hmem : conversation ∈ s.convs)
    (hact : conversation.status = chars "active") :
    GoodStore (runTurn phone body conversation s) := by
  have hlatest : (s.convs.find? (fun c => c.id == conversation.id)).getD conversation =
      conversation := by
    rw [find_by_id_eq h.2.2 hmem]
    rfl
  simp only [runTurn, hlatest]
  have hwc : GoodStore (writeConv (getJerryResponse phone body conversation).conv s) :=
    goodStore_writeConv h hmem hact (getJerry_id_phone phone body conversation).1
      (getJerry_id_phone phone body conversation).2
  have hwf := goodStore_congr hwc
    (convs_writeFin (getJerryResponse phone body conversation).fin _).1
    (convs_writeFin (getJerryResponse phone body conversation).fin _).2
  exact goodStore_congr hwf (convs_saveMessage _ _ _ _ _).1 (convs_saveMessage _ _ _ _ _).2

/-- Every operation of the API surface keeps the invariants. -/
theorem goodStore_applyOp (s : Store) (op : Op) (h : GoodStore s) :
    GoodStore (applyOp s op) := by
  cases op with
  | webhook phone body =>
    show GoodStore (processWebhook phone body s)
    have hcust := goodStore_congr h (convs_getOrCreateCustomer phone s).1.symm.symm
      (convs_getOrCreateCustomer phone s).2
    have hcust2 : GoodStore (getOrCreateCustomer phone s) :=
      goodStore_congr h (convs_getOrCreateCustomer phone s).1 (convs_getOrCreateCustomer phone s).2
    obtain ⟨hg, hact, hph, hmem⟩ := goodStore_getOrCreate phone _ hcust2
    simp only [processWebhook]
    refine goodStore_runTurn _ _ _ _ ?_ ?_ hact
    · exact goodStore_congr hg (convs_saveMessage _ _ _ _ _).1 (convs_saveMessage _ _ _ _ _).2
    · rw [(convs_saveMessage _ _ _ _ _).1]
      exact hmem
  | smsStart phone body =>
    show GoodStore (startSms phone body s)
    unfold startSms
    split
    · exact h
    · have hcust2 : GoodStore (getOrCreateCustomer phone s) :=
        goodStore_congr h (convs_getOrCreateCustomer phone s).1 (convs_getOrCreateCustomer phone s).2
      obtain ⟨hg, _, _, _⟩ := goodStore_getOrCreate phone _ hcust2
      exact goodStore_congr hg (convs_saveMessage _ _ _ _ _).1 (convs_saveMessage _ _ _ _ _).2
  | manual phone body =>
    show GoodStore (manualReply phone body s)
    unfold manualReply
    obtain ⟨hg, _, _, _⟩ := goodStore_getOrCreate phone s h
    exact goodStore_congr hg (convs_saveMessage _ _ _ _ _).1 (convs_saveMessage _ _ _ _ _).2

theorem goodStore_applyOps (ops : List Op) (s : Store) (h : GoodStore s) :
    GoodStore (applyOps ops s) := by
  induction ops generalizing s with
  | nil => exact h
  | cons op ops ih => exact ih _ (goodStore_applyOp s op h)

/-- C3.  After any sequence of webhook turns, campaign sends and manual
replies starting from an empty store, at most one conversation per
phone is active; and get-or-create leaves the store untouched (creates
nothing) whenever an active conversation for the phone already
exists. -/
theorem at_most_one_active :
    (∀ (ops : List Op) (P : List Char), countActive P (applyOps ops emptyStore) ≤ 1) ∧
    (∀ (P : List Char) (s : Store), hasActiveB P s = true →
      (getOrCreateConversation P s).2 = s) := by
  constructor
  · intro ops P
    exact (goodStore_applyOps ops emptyStore goodStore_empty).1 P
  · intro P s h
    unfold hasActiveB at h
    obtain ⟨c, hcm, hcp⟩ := List.any_eq_true.mp h
    cases hf : s.convs.find? (isActiveFor P) with
    | none => exact absurd (List.find?_eq_none.mp hf c hcm) (by simp [hcp])
    | some c2 =>
      rw [getOrCreate_eq_some hf]

/-- Closed instance of `at_most_one_active`: on a store holding one
active conversation, get-or-create creates nothing (and the invariant
holds after a concrete operation sequence). -/
theorem at_most_one_active_witness :
    hasActiveB (chars "+14035550100")
      { customers := [chars "+14035550100"], convs := [freshConv 1 (chars "+14035550100")],
        messages := [], appointments := [], callbacks := [], nextId := 2 } = true ∧
    (getOrCreateConversation (chars "+14035550100")
      { customers := [chars "+14035550100"], convs := [freshConv 1 (chars "+14035550100")],
        messages := [], appointments := [], callbacks := [], nextId := 2 }).2 =
      { customers := [chars "+14035550100"], convs := [freshConv 1 (chars "+14035550100")],
        messages := [], appointments := [], callbacks := [], nextId := 2 } ∧
    countActive (chars "+14035550100")
      (applyOps [Op.smsStart (chars "+14035550100") (chars "Hi!"),
        Op.webhook (chars "+14035550100") (chars "I want an suv")] emptyStore) ≤ 1 :=
  ⟨by decide,
   at_most_one_active.2 (chars "+14035550100") _ (by decide),
   at_most_one_active.1 [Op.smsStart (chars "+14035550100") (chars "Hi!"),
     Op.webhook (chars "+14035550100") (chars "I want an suv")] (chars "+14035550100")⟩

/-! ## Claim theorems: one finalization row per conversation (`index.js`) -/

theorem freshConv_status (i : Nat) (p : List Char) :
    (freshConv i p).status = chars "active" := rfl

theorem finEvts_none (cid : Nat) : finEvts cid none = [] := rfl

theorem finEvts_some (cid : Nat) (f : FinRec) : finEvts cid (some f) = [(cid, f)] := rfl

/-- A global interrupt never marks the row converted: opt-out and
resume write other statuses and every other interrupt keeps the
status. -/
theorem globalInterrupts_not_convert {msg : List Char} {c : Conv} {r : StepResult}
    (h : globalInterrupts msg c = some r) :
    r.conv.status = chars "converted" → c.status = chars "converted" := by
  unfold globalInterrupts at h
  repeat' split at h
  all_goals first
    | (injection h with h2; subst h2; exact fun hx => hx)
    | (injection h with h2; subst h2;
        exact fun hx => absurd hx (by decide : ¬(chars "stopped" = chars "converted")))
    | (injection h with h2; subst h2;
        exact fun hx => absurd hx (by decide : ¬(chars "active" = chars "converted")))
    | injection h

/-- The greeting-stage branch keeps the status and never confirms. -/
theorem greetingLogic_keep (msg : List Char) (c : Conv) :
    (greetingLogic msg c).conv.status = c.status ∧
    ((greetingLogic msg c).conv.stage = some (chars "confirmed") →
      c.stage = some (chars "confirmed")) := by
  unfold greetingLogic
  split
  · exact ⟨rfl, fun hx =>
      absurd hx (by decide : ¬(some (chars "budget") = some (chars "confirmed")))⟩
  · exact ⟨rfl, fun hx => hx⟩

/-- The budget-stage branch keeps the status and never confirms. -/
theorem budgetLogic_keep (msg : List Char) (c : Conv) :
    (budgetLogic msg c).conv.status = c.status ∧
    ((budgetLogic msg c).conv.stage = some (chars "confirmed") →
      c.stage = some (chars "confirmed")) := by
  unfold budgetLogic
  repeat' split
  all_goals first
    | exact ⟨rfl, fun hx => hx⟩
    | exact ⟨rfl, fun hx =>
        absurd hx (by decide : ¬(some (chars "intent") = some (chars "confirmed")))⟩

/-- The intent-stage branch keeps the status and never confirms. -/
theorem intentLogic_keep (msg : List Char) (c : Conv) :
    (intentLogic msg c).conv.status = c.status ∧
    ((intentLogic msg c).conv.stage = some (chars "confirmed") →
      c.stage = some (chars "confirmed")) := by
  unfold intentLogic
  repeat' split
  all_goals first
    | exact ⟨rfl, fun hx => hx⟩
    | exact ⟨rfl, fun hx =>
        absurd hx (by decide : ¬(some (chars "datetime") = some (chars "confirmed")))⟩

/-- The confirmed-stage branch never newly converts (cancel writes
`cancelled`) and never newly confirms (reschedule resets the stage to
`datetime`). -/
theorem confirmedLogic_keep (msg : List Char) (c : Conv) :
    ((confirmedLogic msg c).conv.status = chars "converted" →
      c.status = chars "converted") ∧
    ((confirmedLogic msg c).conv.stage = some (chars "confirmed") →
      c.stage = some (chars "confirmed")) := by
  unfold confirmedLogic
  repeat' split
  all_goals first
    | exact ⟨fun hx => hx, fun hx => hx⟩
    | exact ⟨fun hx => hx, fun hx =>
        absurd hx (by decide : ¬(some (chars "datetime") = some (chars "confirmed")))⟩
    | exact ⟨fun hx =>
        absurd hx (by decide : ¬(chars "cancelled" = chars "converted")), fun hx => hx⟩

/-- The datetime-stage branch always finalizes: the row goes
`confirmed`/`converted` with its intent kept, and the inserted record
sits in the appointments table exactly when the intent is
`testdrive`. -/
theorem datetimeLogic_fin (phone msg : List Char) (c : Conv) :
    ∃ f, (datetimeLogic phone msg c).fin = some f ∧
      (datetimeLogic phone msg c).conv.status = chars "converted" ∧
      (datetimeLogic phone msg c).conv.stage = some (chars "confirmed") ∧
      (datetimeLogic phone msg c).conv.intent = c.intent ∧
      f.isAppointment = (c.intent == some (chars "testdrive")) := by
  unfold datetimeLogic
  split
  · exact ⟨_, rfl, rfl, rfl, rfl, rfl⟩
  · exact ⟨_, rfl, rfl, rfl, rfl, rfl⟩

/-- A stage-ladder turn either does not finalize — and then cannot
newly mark the row converted or confirmed — or finalizes exactly one
record, converting and confirming the row, keeping its intent, into
the table the intent selects. -/
theorem stageLogic_fin_cases (phone msg : List Char) (c : Conv) :
    ((stageLogic phone msg c).fin = none ∧
      ((stageLogic phone msg c).conv.status = chars "converted" →
        c.status = chars "converted") ∧
      ((stageLogic phone msg c).conv.stage = some (chars "confirmed") →
        c.stage = some (chars "confirmed"))) ∨
    (∃ f, (stageLogic phone msg c).fin = some f ∧
      (stageLogic phone msg c).conv.status = chars "converted" ∧
      (stageLogic phone msg c).conv.stage = some (chars "confirmed") ∧
      (stageLogic phone msg c).conv.intent = c.intent ∧
      f.isAppointment = (c.intent == some (chars "testdrive"))) := by
  unfold stageLogic
  repeat' split
  · exact Or.inl ⟨(greetingLogic_frame msg c).2.2.2,
      fun hx => (greetingLogic_keep msg c).1.symm.trans hx,
      (greetingLogic_keep msg c).2⟩
  · exact Or.inl ⟨(budgetLogic_frame msg c).2.2,
      fun hx => (budgetLogic_keep msg c).1.symm.trans hx,
      (budgetLogic_keep msg c).2⟩
  · exact Or.inl ⟨(intentLogic_frame msg c).2.2,
      fun hx => (intentLogic_keep msg c).1.symm.trans hx,
      (intentLogic_keep msg c).2⟩
  · exact Or.inr (datetimeLogic_fin phone msg c)
  · exact Or.inl ⟨(confirmedLogic_frame msg c).2.2,
      (confirmedLogic_keep msg c).1, (confirmedLogic_keep msg c).2⟩
  · exact Or.inl ⟨rfl, fun hx => hx, fun hx => hx⟩

/-- A dialogue turn either inserts no finalization record — and then
cannot newly mark the row converted or confirmed — or inserts exactly
one, converting and confirming the row, keeping its intent, into the
table the intent selects. -/
theorem getJerry_fin_cases (phone msg : List Char) (c : Conv) :
    ((getJerryResponse phone msg c).fin = none ∧
      ((getJerryResponse phone msg c).conv.status = chars "converted" →
        c.status = chars "converted") ∧
      ((getJerryResponse phone msg c).conv.stage = some (chars "confirmed") →
        c.stage = some (chars "confirmed"))) ∨
    (∃ f, (getJerryResponse phone msg c).fin = some f ∧
      (getJerryResponse phone msg c).conv.status = chars "converted" ∧
      (getJerryResponse phone msg c).conv.stage = some (chars "confirmed") ∧
      (getJerryResponse phone msg c).conv.intent = c.intent ∧
      f.isAppointment = (c.intent == some (chars "testdrive"))) := by
  unfold getJerryResponse
  cases hgi : globalInterrupts msg c with
  | some r =>
    obtain ⟨_, _, _, hstg, hfin⟩ := globalInterrupts_frame hgi
    exact Or.inl ⟨hfin, globalInterrupts_not_convert hgi, fun hx => hstg.symm.trans hx⟩
  | none => exact stageLogic_fin_cases phone msg c

/-- Per-row bookkeeping tying the attributed finalization events to a
conversation row: the row owns exactly one event when converted and
none otherwise, reaching stage `confirmed` entails status `converted`,
and every event attributed to the row lies in the table its intent
selects. -/
def ConvFinOK (evs : List (Nat × FinRec)) (c : Conv) : Prop :=
  evs.countP (fun e => e.1 == c.id) = (if c.status = chars "converted" then 1 else 0) ∧
  (c.stage = some (chars "confirmed") → c.status = chars "converted") ∧
  (∀ e ∈ evs, e.1 = c.id → e.2.isAppointment = (c.intent == some (chars "testdrive")))

/-- The finalization invariant: the conversation-table invariants hold,
every event is attributed to a stored row, and every stored row's
bookkeeping holds. -/
def FinInv (s : Store) (evs : List (Nat × FinRec)) : Prop :=
  GoodStore s ∧ (∀ e ∈ evs, ∃ c ∈ s.convs, e.1 = c.id) ∧ ∀ c ∈ s.convs, ConvFinOK evs c

theorem finInv_empty : FinInv emptyStore [] := by
  refine ⟨goodStore_empty, ?_, ?_⟩
  · intro e he
    exact absurd he (List.not_mem_nil e)
  · intro c hc
    exact absurd hc (List.not_mem_nil c)

/-- Operations that only touch non-conversation tables keep the
finalization invariant. -/
theorem finInv_congr {s s2 : Store} {evs : List (Nat × FinRec)} (h : FinInv s evs)
    (hc : s2.convs = s.convs) (hn : s2.nextId = s.nextId) : FinInv s2 evs := by
  obtain ⟨hg, he, hok⟩ := h
  refine ⟨goodStore_congr hg hc hn, ?_, ?_⟩
  · intro e hme
    rw [hc]
    exact he e hme
  · intro c hcc
    rw [hc] at hcc
    exact hok c hcc

/-- Get-or-create keeps the finalization invariant: a fresh row is
active, at stage `greeting`, and owns no event (all event ids are
below the sequence value). -/
theorem finInv_getOrCreate (phone : List Char) {s : Store} {evs : List (Nat × FinRec)}
    (h : FinInv s evs) : FinInv (getOrCreateConversation phone s).2 evs := by
  obtain ⟨hg, he, hok⟩ := h
  cases hf : s.convs.find? (isActiveFor phone) with
  | some c =>
    rw [getOrCreate_eq_some hf]
    exact ⟨hg, he, hok⟩
  | none =>
    have hgs := (goodStore_getOrCreate phone s hg).1
    rw [getOrCreate_eq_none hf] at hgs
    rw [getOrCreate_eq_none hf]
    refine ⟨hgs, ?_, ?_⟩
    · intro e hme
      obtain ⟨c, hcm, hce⟩ := he e hme
      exact ⟨c, List.mem_cons_of_mem _ hcm, hce⟩
    · intro c hcc
      have hcc2 : c ∈ freshConv s.nextId phone :: s.convs := hcc
      rcases List.mem_cons.mp hcc2 with rfl | hold
      · refine ⟨?_, ?_, ?_⟩
        · have hz : evs.countP (fun e => e.1 == (freshConv s.nextId phone).id) = 0 := by
            refine List.countP_eq_zero.mpr ?_
            intro e hme
            obtain ⟨c0, hc0, hce⟩ := he e hme
            have hlt := hg.2.1 c0 hc0
            simp only [freshConv_id, beq_iff_eq]
            omega
          have hne0 : ¬((freshConv s.nextId phone).status = chars "converted") := by
            rw [freshConv_status]
            decide
          rw [hz, if_neg hne0]
        · intro hx
          rw [freshConv_stage] at hx
          exact absurd hx (by decide)
        · intro e hme hid
          exfalso
          obtain ⟨c0, hc0, hce⟩ := he e hme
          have hlt := hg.2.1 c0 hc0
          rw [freshConv_id] at hid
          omega
      · exact hok c hold

/-- Writing back one dialogue turn's row and appending the turn's
attributed events keeps the finalization invariant, for a turn run on
an active stored row. -/
theorem finInv_write {s : Store} {evs : List (Nat × FinRec)} {conversation : Conv}
    {r : StepResult} (h : FinInv s evs) (hmem : conversation ∈ s.convs)
    (hact : conversation.status = chars "active")
    (hid : r.conv.id = conversation.id) (hph : r.conv.phone = conversation.phone)
    (hcases :
      (r.fin = none ∧
        (r.conv.status = chars "converted" → conversation.status = chars "converted") ∧
        (r.conv.stage = some (chars "confirmed") →
          conversation.stage = some (chars "confirmed"))) ∨
      (∃ f, r.fin = some f ∧ r.conv.status = chars "converted" ∧
        r.conv.stage = some (chars "confirmed") ∧ r.conv.intent = conversation.intent ∧
        f.isAppointment = (conversation.intent == some (chars "testdrive")))) :
    FinInv (writeConv r.conv s) (evs ++ finEvts conversation.id r.fin) := by
  obtain ⟨hg, he, hok⟩ := h
  have hnc : ¬(conversation.status = chars "converted") := by
    rw [hact]
    decide
  have hcnt0 : evs.countP (fun e => e.1 == conversation.id) = 0 := by
    rw [(hok conversation hmem).1, if_neg hnc]
  have hfix : ∀ c ∈ s.convs, (if c.id == r.conv.id then r.conv else c).id = c.id := by
    intro c _
    by_cases hcc : (c.id == r.conv.id) = true
    · rw [if_pos hcc]
      exact (beq_iff_eq.mp hcc).symm
    · rw [if_neg hcc]
  have hmm : ∀ c0 ∈ s.convs,
      (if c0.id == r.conv.id then r.conv else c0) ∈ (writeConv r.conv s).convs := by
    intro c0 hc0
    show (if c0.id == r.conv.id then r.conv else c0) ∈
      s.convs.map (fun c => if c.id == r.conv.id then r.conv else c)
    exact List.mem_map_of_mem _ hc0
  have hpred : (fun (e : Nat × FinRec) => e.1 == r.conv.id) =
      (fun (e : Nat × FinRec) => e.1 == conversation.id) := by
    funext e
    rw [hid]
  have hgw : GoodStore (writeConv r.conv s) := goodStore_writeConv hg hmem hact hid hph
  cases hrf : r.fin with
  | none =>
    have hleft : (r.conv.status = chars "converted" → conversation.status = chars "converted") ∧
        (r.conv.stage = some (chars "confirmed") →
          conversation.stage = some (chars "confirmed")) := by
      rcases hcases with ⟨-, hst, hsg⟩ | ⟨f2, hfs, -, -, -, -⟩
      · exact ⟨hst, hsg⟩
      · rw [hrf] at hfs
        simp at hfs
    obtain ⟨hst, hsg⟩ := hleft
    rw [finEvts_none, List.append_nil]
    have hnc2 : ¬(r.conv.status = chars "converted") := fun hx => hnc (hst hx)
    refine ⟨hgw, ?_, ?_⟩
    · intro e hme
      obtain ⟨c0, hc0, hce⟩ := he e hme
      exact ⟨_, hmm c0 hc0, hce.trans (hfix c0 hc0).symm⟩
    · intro c2 hc2
      have hc22 : c2 ∈ s.convs.map (fun c => if c.id == r.conv.id then r.conv else c) := hc2
      obtain ⟨c0, hc0, rfl⟩ := List.mem_map.mp hc22
      by_cases hcc : (c0.id == r.conv.id) = true
      · have hc0id : c0.id = conversation.id := (beq_iff_eq.mp hcc).trans hid
        have hc0eq : c0 = conversation := eq_of_mem_of_id_eq hg.2.2 hc0 hmem hc0id
        rw [if_pos hcc]
        refine ⟨?_, ?_, ?_⟩
        · rw [hpred, hcnt0, if_neg hnc2]
        · intro hx
          exact absurd ((hok conversation hmem).2.1 (hsg hx)) hnc
        · intro e hme hid2
          exfalso
          have hz := List.countP_eq_zero.mp hcnt0 e hme
          simp only [beq_iff_eq] at hz
          rw [hid] at hid2
          exact hz hid2
      · rw [if_neg hcc]
        exact hok c0 hc0
  | some f =>
    obtain ⟨hfn, -, -⟩ | ⟨f2, hfs, hst, hsg, hin, happ⟩ := hcases
    · rw [hrf] at hfn
      simp at hfn
    · rw [hrf] at hfs
      injection hfs with hff
      subst hff
      rw [finEvts_some]
      refine ⟨hgw, ?_, ?_⟩
      · intro e hme
        rcases List.mem_append.mp hme with h1 | h2
        · obtain ⟨c0, hc0, hce⟩ := he e h1
          exact ⟨_, hmm c0 hc0, hce.trans (hfix c0 hc0).symm⟩
        · have he2 : e = (conversation.id, f) := List.mem_singleton.mp h2
          subst he2
          exact ⟨_, hmm conversation hmem, (hfix conversation hmem).symm⟩
      · intro c2 hc2
        have hc22 : c2 ∈ s.convs.map (fun c => if c.id == r.conv.id then r.conv else c) := hc2
        obtain ⟨c0, hc0, rfl⟩ := List.mem_map.mp hc22
        by_cases hcc : (c0.id == r.conv.id) = true
        · have hc0id : c0.id = conversation.id := (beq_iff_eq.mp hcc).trans hid
          have hc0eq : c0 = conversation := eq_of_mem_of_id_eq hg.2.2 hc0 hmem hc0id
          rw [if_pos hcc]
          refine ⟨?_, fun _ => hst, ?_⟩
          · rw [List.countP_append, hpred, hcnt0]
            have hone : (([(conversation.id, f)] : List (Nat × FinRec)).countP
                (fun e => e.1 == conversation.id)) = 1 := by
              simp [List.countP_cons]
            rw [hone, if_pos hst]
          · intro e hme hid2
            rcases List.mem_append.mp hme with h1 | h2
            · exfalso
              have hz := List.countP_eq_zero.mp hcnt0 e h1
              simp only [beq_iff_eq] at hz
              rw [hid] at hid2
              exact hz hid2
            · have he2 : e = (conversation.id, f) := List.mem_singleton.mp h2
              subst he2
              rw [hin]
              exact happ
        · rw [if_neg hcc]
          have hne : conversation.id ≠ c0.id := by
            intro hx
            apply hcc
            rw [beq_iff_eq, hid]
            exact hx.symm
          refine ⟨?_, (hok c0 hc0).2.1, ?_⟩
          · rw [List.countP_append]
            have hzero : (([(conversation.id, f)] : List (Nat × FinRec)).countP
                (fun e => e.1 == c0.id)) = 0 := by
              have hb : (conversation.id == c0.id) = false := beq_eq_false_iff_ne.mpr hne
              simp [List.countP_cons, hb]
            rw [hzero, (hok c0 hc0).1, Nat.add_zero]
          · intro e hme hid2
            rcases List.mem_append.mp hme with h1 | h2
            · exact (hok c0 hc0).2.2 e h1 hid2
            · exfalso
              have he2 : e = (conversation.id, f) := List.mem_singleton.mp h2
              subst he2
              exact hne hid2

/-- One full webhook dialogue turn keeps the finalization invariant,
appending the turn's attributed events. -/
theorem finInv_runTurnEv (phone body : List Char) {conversation : Conv} {s : Store}
    {evs : List (Nat × FinRec)} (h : FinInv s evs) (hmem : conversation ∈ s.convs)
    (hact : conversation.status = chars "active") :
    FinInv (runTurnEv phone body conversation s).1
      (evs ++ (runTurnEv phone body conversation s).2) := by
  have hlatest : (s.convs.find? (fun c => c.id == conversation.id)).getD conversation =
      conversation := by
    rw [find_by_id_eq h.1.2.2 hmem]
    rfl
  have hR : runTurnEv phone body conversation s =
      (saveMessage conversation.id phone (chars "assistant")
          (getJerryResponse phone body conversation).reply
          (writeFin (getJerryResponse phone body conversation).fin
            (writeConv (getJerryResponse phone body conversation).conv s)),
        finEvts conversation.id (getJerryResponse phone body conversation).fin) := by
    simp only [runTurnEv, hlatest]
  rw [hR]
  have hw := finInv_write h hmem hact
    (getJerry_id_phone phone body conversation).1
    (getJerry_id_phone phone body conversation).2
    (getJerry_fin_cases phone body conversation)
  exact finInv_congr hw
    (by rw [(convs_saveMessage _ _ _ _ _).1, (convs_writeFin _ _).1])
    (by rw [(convs_saveMessage _ _ _ _ _).2, (convs_writeFin _ _).2])

/-- Every operation of the API surface keeps the finalization
invariant, appending its attributed events. -/
theorem finInv_applyOp (s : Store) (evs : List (Nat × FinRec)) (op : Op) (h : FinInv s evs) :
    FinInv (applyOpEv s op).1 (evs ++ (applyOpEv s op).2) := by
  cases op with
  | webhook phone body =>
    have h1 : FinInv (getOrCreateCustomer phone s) evs :=
      finInv_congr h (convs_getOrCreateCustomer phone s).1 (convs_getOrCreateCustomer phone s).2
    obtain ⟨hgg, hact, hph, hmem⟩ := goodStore_getOrCreate phone (getOrCreateCustomer phone s) h1.1
    have h2 : FinInv (getOrCreateConversation phone (getOrCreateCustomer phone s)).2 evs :=
      finInv_getOrCreate phone h1
    have h3 : FinInv (saveMessage
        (getOrCreateConversation phone (getOrCreateCustomer phone s)).1.id phone (chars "user")
        body (getOrCreateConversation phone (getOrCreateCustomer phone s)).2) evs :=
      finInv_congr h2 (convs_saveMessage _ _ _ _ _).1 (convs_saveMessage _ _ _ _ _).2
    have hmem2 : (getOrCreateConversation phone (getOrCreateCustomer phone s)).1 ∈
        (saveMessage (getOrCreateConversation phone (getOrCreateCustomer phone s)).1.id phone
          (chars "user") body
          (getOrCreateConversation phone (getOrCreateCustomer phone s)).2).convs := by
      rw [(convs_saveMessage _ _ _ _ _).1]
      exact hmem
    have hw := finInv_runTurnEv phone body h3 hmem2 hact
    show FinInv (processWebhookEv phone body s).1 (evs ++ (processWebhookEv phone body s).2)
    simp only [processWebhookEv]
    exact hw
  | smsStart phone body =>
    show FinInv (startSms phone body s) (evs ++ [])
    rw [List.append_nil]
    unfold startSms
    split
    · exact h
    · exact finInv_congr
        (finInv_getOrCreate phone (finInv_congr h (convs_getOrCreateCustomer phone s).1
          (convs_getOrCreateCustomer phone s).2))
        (convs_saveMessage _ _ _ _ _).1 (convs_saveMessage _ _ _ _ _).2
  | manual phone body =>
    show FinInv (manualReply phone body s) (evs ++ [])
    rw [List.append_nil]
    show FinInv (saveMessage (getOrCreateConversation phone s).1.id phone (chars "assistant")
      body (getOrCreateConversation phone s).2) evs
    exact finInv_congr (finInv_getOrCreate phone h)
      (convs_saveMessage _ _ _ _ _).1 (convs_saveMessage _ _ _ _ _).2

theorem finInv_applyOpsEv (ops : List Op) (s : Store) (evs : List (Nat × FinRec))
    (h : FinInv s evs) : FinInv (applyOpsEv ops s evs).1 (applyOpsEv ops s evs).2 := by
  induction ops generalizing s evs with
  | nil => exact h
  | cons op rest ih =>
    show FinInv (applyOpsEv rest (applyOpEv s op).1 (evs ++ (applyOpEv s op).2)).1
      (applyOpsEv rest (applyOpEv s op).1 (evs ++ (applyOpEv s op).2)).2
    exact ih _ _ (finInv_applyOp s evs op h)

/-- The instrumented semantics runs the very store transitions of the
API operations. -/
theorem applyOpEv_fst (s : Store) (op : Op) : (applyOpEv s op).1 = applyOp s op := by
  cases op <;> rfl

theorem applyOpsEv_fst (ops : List Op) (s : Store) (evs : List (Nat × FinRec)) :
    (applyOpsEv ops s evs).1 = applyOps ops s := by
  induction ops generalizing s evs with
  | nil => rfl
  | cons op rest ih =>
    show (applyOpsEv rest (applyOpEv s op).1 (evs ++ (applyOpEv s op).2)).1 =
      applyOps (op :: rest) s
    rw [ih, applyOpEv_fst]
    rfl

theorem finCount_writeConv (c : Conv) (s : Store) : finCount (writeConv c s) = finCount s := rfl

theorem finCount_saveMessage (i : Nat) (p r ct : List Char) (s : Store) :
    finCount (saveMessage i p r ct s) = finCount s := rfl

theorem finCount_getOrCreateCustomer (phone : List Char) (s : Store) :
    finCount (getOrCreateCustomer phone s) = finCount s := by
  unfold getOrCreateCustomer
  split <;> rfl

theorem finCount_getOrCreate (phone : List Char) (s : Store) :
    finCount (getOrCreateConversation phone s).2 = finCount s := by
  cases hf : s.convs.find? (isActiveFor phone) with
  | some c =>
    rw [getOrCreate_eq_some hf]
  | none =>
    rw [getOrCreate_eq_none hf]
    rfl

/-- Each finalization insert grows the tables by exactly the number of
events it reports. -/
theorem finCount_writeFin (cid : Nat) (f : Option FinRec) (s : Store) :
    finCount (writeFin f s) = finCount s + (finEvts cid f).length := by
  cases f with
  | none => rfl
  | some r =>
    show finCount (if r.isAppointment = true then { s with appointments := r :: s.appointments }
      else { s with callbacks := r :: s.callbacks }) = finCount s + 1
    split
    · show s.appointments.length + 1 + s.callbacks.length =
        s.appointments.length + s.callbacks.length + 1
      omega
    · show s.appointments.length + (s.callbacks.length + 1) =
        s.appointments.length + s.callbacks.length + 1
      omega

theorem finCount_runTurnEv (phone body : List Char) (conversation : Conv) (s : Store) :
    finCount (runTurnEv phone body conversation s).1 =
      finCount s + (runTurnEv phone body conversation s).2.length := by
  show finCount (saveMessage conversation.id phone (chars "assistant")
      (getJerryResponse phone body
        ((s.convs.find? (fun c => c.id == conversation.id)).getD conversation)).reply
      (writeFin (getJerryResponse phone body
          ((s.convs.find? (fun c => c.id == conversation.id)).getD conversation)).fin
        (writeConv (getJerryResponse phone body
          ((s.convs.find? (fun c => c.id == conversation.id)).getD conversation)).conv s))) =
    finCount s + (finEvts conversation.id (getJerryResponse phone body
      ((s.convs.find? (fun c => c.id == conversation.id)).getD conversation)).fin).length
  rw [finCount_saveMessage, finCount_writeFin conversation.id, finCount_writeConv]

theorem finCount_applyOpEv (s : Store) (op : Op) :
    finCount (applyOpEv s op).1 = finCount s + (applyOpEv s op).2.length := by
  cases op with
  | webhook phone body =>
    show finCount (processWebhookEv phone body s).1 =
      finCount s + (processWebhookEv phone body s).2.length
    simp only [processWebhookEv]
    rw [finCount_runTurnEv, finCount_saveMessage, finCount_getOrCreate,
      finCount_getOrCreateCustomer]
  | smsStart phone body =>
    show finCount (startSms phone body s) = finCount s + (0 : Nat)
    rw [Nat.add_zero]
    unfold startSms
    split
    · rfl
    · show finCount (saveMessage
        (getOrCreateConversation phone (getOrCreateCustomer phone s)).1.id phone
        (chars "assistant") body
        (getOrCreateConversation phone (getOrCreateCustomer phone s)).2) = finCount s
      rw [finCount_saveMessage, finCount_getOrCreate, finCount_getOrCreateCustomer]
  | manual phone body =>
    show finCount (saveMessage (getOrCreateConversation phone s).1.id phone (chars "assistant")
      body (getOrCreateConversation phone s).2) = finCount s + (0 : Nat)
    rw [Nat.add_zero, finCount_saveMessage, finCount_getOrCreate]

theorem finCount_applyOpsEv (ops : List Op) (s : Store) (evs : List (Nat × FinRec)) :
    finCount (applyOpsEv ops s evs).1 + evs.length =
      finCount s + (applyOpsEv ops s evs).2.length := by
  induction ops generalizing s evs with
  | nil => rfl
  | cons op rest ih =>
    show finCount (applyOpsEv rest (applyOpEv s op).1 (evs ++ (applyOpEv s op).2)).1 +
        evs.length =
      finCount s + (applyOpsEv rest (applyOpEv s op).1 (evs ++ (applyOpEv s op).2)).2.length
    have h1 := ih (applyOpEv s op).1 (evs ++ (applyOpEv s op).2)
    have h2 := finCount_applyOpEv s op
    rw [List.length_append] at h1
    omega

/-- C1.  `index.js`: across every sequence of webhook turns, campaign
sends and manual replies from an empty store, each conversation row is
attributed at most one finalization insert, and a row that reached
stage `confirmed` — which only the datetime transition produces — is
attributed exactly one, never zero and never two, reschedule turns
included (a datetime turn also leaves `status = 'converted'`, so the
next inbound message starts a fresh conversation instead of reaching
the confirmed-stage reschedule branch); that one insert went to the
appointments table exactly when the row's intent is `testdrive`, and
to the callbacks table otherwise.  The appointments and callbacks rows
carry no conversation column, so a row is attributed to the
conversation whose dialogue turn inserted it: the instrumented fold is
the store semantics itself (third conjunct) and its events enumerate
the inserted rows one for one (fourth conjunct). -/
theorem finalization_once_per_conversation (ops : List Op) :
    (∀ c ∈ (applyOpsEv ops emptyStore []).1.convs,
      (applyOpsEv ops emptyStore []).2.countP (fun e => e.1 == c.id) ≤ 1) ∧
    (∀ c ∈ (applyOpsEv ops emptyStore []).1.convs,
      c.stage = some (chars "confirmed") →
        (applyOpsEv ops emptyStore []).2.countP (fun e => e.1 == c.id) = 1 ∧
        ∀ e ∈ (applyOpsEv ops emptyStore []).2, e.1 = c.id →
          e.2.isAppointment = (c.intent == some (chars "testdrive"))) ∧
    (applyOpsEv ops emptyStore []).1 = applyOps ops emptyStore ∧
    finCount (applyOpsEv ops emptyStore []).1 = (applyOpsEv ops emptyStore []).2.length := by
  obtain ⟨hg, he, hok⟩ := finInv_applyOpsEv ops emptyStore [] finInv_empty
  refine ⟨?_, ?_, applyOpsEv_fst ops emptyStore [], ?_⟩
  · intro c hc
    rw [(hok c hc).1]
    split <;> omega
  · intro c hc hstage
    refine ⟨?_, fun e hme hid => (hok c hc).2.2 e hme hid⟩
    rw [(hok c hc).1, if_pos ((hok c hc).2.1 hstage)]
  · have h1 := finCount_applyOpsEv ops emptyStore []
    have h0 : finCount emptyStore = 0 := rfl
    simp only [List.length_nil] at h1
    omega

/-- The reschedule scenario as webhook operations: six inbound messages
funnel one conversation to a test-drive finalization and then ask to
reschedule. -/
def reschedOps : List Op :=
  [Op.webhook (chars "+14035550100") (chars "suv"),
   Op.webhook (chars "+14035550100") (chars "20000"),
   Op.webhook (chars "+14035550100") (chars "test drive"),
   Op.webhook (chars "+14035550100") (chars "tomorrow morning"),
   Op.webhook (chars "+14035550100") (chars "reschedule"),
   Op.webhook (chars "+14035550100") (chars "Friday")]

/-- The converted conversation row the reschedule scenario leaves
behind: "reschedule" arrives after the row left `active`, so the
webhook starts a fresh conversation rather than re-finalizing this
one. -/
def reschedConv : Conv :=
  { id := 1, phone := chars "+14035550100", status := chars "converted",
    stage := some (chars "confirmed"), vehicle_type := some (chars "SUV"),
    budget := some (chars "$20,000"), budget_amount := some 20000,
    intent := some (chars "testdrive"), customer_name := none,
    datetime := some (chars "Tomorrow morning") }

theorem finalization_once_witness :
    (reschedConv ∈ (applyOpsEv reschedOps emptyStore []).1.convs ∧
      reschedConv.stage = some (chars "confirmed")) ∧
    (applyOpsEv reschedOps emptyStore []).2.countP (fun e => e.1 == reschedConv.id) = 1 :=
  ⟨⟨by decide, by decide⟩,
    ((finalization_once_per_conversation reschedOps).2.1 reschedConv (by decide) (by decide)).1⟩

/-! ## Claim theorems: stage monotonicity (`part_001`) -/

/-- Reachable-state invariant of the `part_001` ladder: the stage is
one of the six stage values, and past `greeting` the vehicle type is
set (truthy). -/
def StageOK (c : Conv) : Prop :=
  (c.stage = some (chars "greeting") ∨ c.stage = some (chars "budget") ∨
   c.stage = some (chars "appointment") ∨ c.stage = some (chars "name") ∨
   c.stage = some (chars "datetime") ∨ c.stage = some (chars "confirmed")) ∧
  (c.stage ≠ some (chars "greeting") → isFalsy c.vehicle_type = false)

/-- One `part_001` dialogue turn preserves the invariant and moves the
stage position by zero or one step forward, never backwards and never
skipping. -/
theorem v1_step_mono (phone m : List Char) (c : Conv) (h : StageOK c) :
    StageOK (V1.getJerryResponse phone m c).conv ∧
    V1.stageIdx c ≤ V1.stageIdx (V1.getJerryResponse phone m c).conv ∧
    V1.stageIdx (V1.getJerryResponse phone m c).conv ≤ V1.stageIdx c + 1 := by
  obtain ⟨hsAll, hv⟩ := h
  unfold V1.getJerryResponse
  split
  · exact ⟨⟨hsAll, hv⟩, Nat.le_refl _, Nat.le_succ _⟩
  split
  · exact ⟨⟨hsAll, hv⟩, Nat.le_refl _, Nat.le_succ _⟩
  split
  · exact ⟨⟨hsAll, hv⟩, Nat.le_refl _, Nat.le_succ _⟩
  rcases hsAll with hg | hg | hg | hg | hg | hg
  · -- greeting
    have hidx : V1.stageIdx c = 0 := by unfold V1.stageIdx; rw [hg]; rfl
    rw [if_pos (Or.inl hg)]
    unfold V1.greetingLogic
    repeat' split
    all_goals first
      | exact ⟨⟨Or.inr (Or.inl rfl), fun _ => rfl⟩,
          by rw [hidx]; exact (by decide : (0:Nat) ≤ 1),
          by rw [hidx]; exact (by decide : (1:Nat) ≤ 0 + 1)⟩
      | exact ⟨⟨Or.inl hg, hv⟩, Nat.le_refl _, Nat.le_succ _⟩
  · -- budget
    have hvf : isFalsy c.vehicle_type = false := hv (by rw [hg]; decide)
    have hidx : V1.stageIdx c = 1 := by unfold V1.stageIdx; rw [hg]; rfl
    rw [if_neg (by
      rintro (h1 | h1)
      · rw [hg] at h1; exact absurd h1 (by decide)
      · rw [hvf] at h1; exact absurd h1 (by decide))]
    by_cases hb : isFalsy c.budget = true
    · rw [if_pos ⟨hg, hb⟩]
      unfold V1.budgetLogic
      repeat' split
      all_goals first
        | exact ⟨⟨Or.inr (Or.inr (Or.inl rfl)), fun _ => hvf⟩,
            by rw [hidx]; exact (by decide : (1:Nat) ≤ 2),
            by rw [hidx]; exact (by decide : (2:Nat) ≤ 1 + 1)⟩
        | exact ⟨⟨Or.inr (Or.inl hg), hv⟩, Nat.le_refl _, Nat.le_succ _⟩
    · rw [if_neg (by rintro ⟨_, h2⟩; exact hb h2)]
      rw [if_neg (by rintro ⟨h1, _⟩; rw [hg] at h1; exact absurd h1 (by decide))]
      rw [if_neg (by rintro ⟨h1, _⟩; rw [hg] at h1; exact absurd h1 (by decide))]
      rw [if_neg (by rintro ⟨h1, _⟩; rw [hg] at h1; exact absurd h1 (by decide))]
      rw [if_neg (by rw [hg]; decide)]
      exact ⟨⟨Or.inr (Or.inl hg), hv⟩, Nat.le_refl _, Nat.le_succ _⟩
  · -- appointment
    have hvf : isFalsy c.vehicle_type = false := hv (by rw [hg]; decide)
    have hidx : V1.stageIdx c = 2 := by unfold V1.stageIdx; rw [hg]; rfl
    rw [if_neg (by
      rintro (h1 | h1)
      · rw [hg] at h1; exact absurd h1 (by decide)
      · rw [hvf] at h1; exact absurd h1 (by decide))]
    rw [if_neg (by rintro ⟨h1, _⟩; rw [hg] at h1; exact absurd h1 (by decide))]
    by_cases hb : isFalsy c.intent = true
    · rw [if_pos ⟨hg, hb⟩]
      unfold V1.appointmentLogic
      repeat' split
      all_goals first
        | exact ⟨⟨Or.inr (Or.inr (Or.inr (Or.inl rfl))), fun _ => hvf⟩,
            by rw [hidx]; exact (by decide : (2:Nat) ≤ 3),
            by rw [hidx]; exact (by decide : (3:Nat) ≤ 2 + 1)⟩
        | exact ⟨⟨Or.inr (Or.inr (Or.inl hg)), hv⟩, Nat.le_refl _, Nat.le_succ _⟩
    · rw [if_neg (by rintro ⟨_, h2⟩; exact hb h2)]
      rw [if_neg (by rintro ⟨h1, _⟩; rw [hg] at h1; exact absurd h1 (by decide))]
      rw [if_neg (by rintro ⟨h1, _⟩; rw [hg] at h1; exact absurd h1 (by decide))]
      rw [if_neg (by rw [hg]; decide)]
      exact ⟨⟨Or.inr (Or.inr (Or.inl hg)), hv⟩, Nat.le_refl _, Nat.le_succ _⟩
  · -- name
    have hvf : isFalsy c.vehicle_type = false := hv (by rw [hg]; decide)
    have hidx : V1.stageIdx c = 3 := by unfold V1.stageIdx; rw [hg]; rfl
    rw [if_neg (by
      rintro (h1 | h1)
      · rw [hg] at h1; exact absurd h1 (by decide)
      · rw [hvf] at h1; exact absurd h1 (by decide))]
    rw [if_neg (by rintro ⟨h1, _⟩; rw [hg] at h1; exact absurd h1 (by decide))]
    rw [if_neg (by rintro ⟨h1, _⟩; rw [hg] at h1; exact absurd h1 (by decide))]
    by_cases hb : isFalsy c.customer_name = true
    · rw [if_pos ⟨hg, hb⟩]
      exact ⟨⟨Or.inr (Or.inr (Or.inr (Or.inr (Or.inl rfl)))), fun _ => hvf⟩,
        by rw [hidx]; exact (by decide : (3:Nat) ≤ 4),
        by rw [hidx]; exact (by decide : (4:Nat) ≤ 3 + 1)⟩
    · rw [if_neg (by rintro ⟨_, h2⟩; exact hb h2)]
      rw [if_neg (by rintro ⟨h1, _⟩; rw [hg] at h1; exact absurd h1 (by decide))]
      rw [if_neg (by rw [hg]; decide)]
      exact ⟨⟨Or.inr (Or.inr (Or.inr (Or.inl hg))), hv⟩, Nat.le_refl _, Nat.le_succ _⟩
  · -- datetime
    have hvf : isFalsy c.vehicle_type = false := hv (by rw [hg]; decide)
    have hidx : V1.stageIdx c = 4 := by unfold V1.stageIdx; rw [hg]; rfl
    rw [if_neg (by
      rintro (h1 | h1)
      · rw [hg] at h1; exact absurd h1 (by decide)
      · rw [hvf] at h1; exact absurd h1 (by decide))]
    rw [if_neg (by rintro ⟨h1, _⟩; rw [hg] at h1; exact absurd h1 (by decide))]
    rw [if_neg (by rintro ⟨h1, _⟩; rw [hg] at h1; exact absurd h1 (by decide))]
    rw [if_neg (by rintro ⟨h1, _⟩; rw [hg] at h1; exact absurd h1 (by decide))]
    by_cases hb : isFalsy c.datetime = true
    · rw [if_pos ⟨hg, hb⟩]
      exact ⟨⟨Or.inr (Or.inr (Or.inr (Or.inr (Or.inr rfl)))), fun _ => hvf⟩,
        by rw [hidx]; exact (by decide : (4:Nat) ≤ 5),
        by rw [hidx]; exact (by decide : (5:Nat) ≤ 4 + 1)⟩
    · rw [if_neg (by rintro ⟨_, h2⟩; exact hb h2)]
      rw [if_neg (by rw [hg]; decide)]
      exact ⟨⟨Or.inr (Or.inr (Or.inr (Or.inr (Or.inl hg)))), hv⟩, Nat.le_refl _, Nat.le_succ _⟩
  · -- confirmed
    have hvf : isFalsy c.vehicle_type = false := hv (by rw [hg]; decide)
    rw [if_neg (by
      rintro (h1 | h1)
      · rw [hg] at h1; exact absurd h1 (by decide)
      · rw [hvf] at h1; exact absurd h1 (by decide))]
    rw [if_neg (by rintro ⟨h1, _⟩; rw [hg] at h1; exact absurd h1 (by decide))]
    rw [if_neg (by rintro ⟨h1, _⟩; rw [hg] at h1; exact absurd h1 (by decide))]
    rw [if_neg (by rintro ⟨h1, _⟩; rw [hg] at h1; exact absurd h1 (by decide))]
    rw [if_neg (by rintro ⟨h1, _⟩; rw [hg] at h1; exact absurd h1 (by decide))]
    rw [if_pos hg]
    exact ⟨⟨Or.inr (Or.inr (Or.inr (Or.inr (Or.inr hg)))), hv⟩, Nat.le_refl _, Nat.le_succ _⟩

/-- Any turn-by-turn trace from an invariant-satisfying row moves its
stage position by at most one forward step at a time. -/
theorem v1_chain (phone : List Char) (msgs : List (List Char)) (c : Conv) (h : StageOK c) :
    List.Chain' (fun a b => V1.stageIdx a ≤ V1.stageIdx b ∧ V1.stageIdx b ≤ V1.stageIdx a + 1)
      (V1.runTrace phone c msgs) := by
  induction msgs generalizing c with
  | nil => simp [V1.runTrace]
  | cons m ms ih =>
    rw [V1.runTrace]
    have hstep := v1_step_mono phone m c h
    refine List.chain'_cons'.mpr ⟨?_, ih _ hstep.1⟩
    intro b hb
    have hhead : (V1.runTrace phone (V1.getJerryResponse phone m c).conv ms).head? =
        some (V1.getJerryResponse phone m c).conv := by
      cases ms <;> rfl
    rw [hhead] at hb
    cases hb
    exact ⟨hstep.2.1, hstep.2.2⟩

/-- C4.  In the `part_001` engine — the variant carrying the full stage
ladder `greeting → budget → appointment → name → datetime → confirmed`
— the stage positions a fresh conversation passes through under any
sequence of inbound messages form a non-decreasing chain that never
advances by more than one step, so no stage in the order is ever
skipped (this variant's manager interrupt does not move the stage, so
no shortcut skip arises at all, and it has no reschedule loop to
ignore). -/
theorem stage_monotonicity (id : Nat) (phone p0 : List Char) (msgs : List (List Char)) :
    List.Chain' (fun a b => V1.stageIdx a ≤ V1.stageIdx b ∧ V1.stageIdx b ≤ V1.stageIdx a + 1)
      (V1.runTrace phone (freshConv id p0) msgs) :=
  v1_chain phone msgs (freshConv id p0) ⟨Or.inl rfl, fun hne => absurd rfl hne⟩

end Jerry
